import Mathlib

/-!
Shallow embedding of the web-block-programming workspace core
(BlockRegistry, WorkspaceManager, LayoutEngine, DragManager,
SerializationService) and proofs of the spec claims about it.

Conventions of the embedding:
* TS `number` pixel/coordinate values are modelled as `ℚ` (the programs only
  add, multiply, divide by 2 and floor-divide positive quantities, so no
  IEEE-754 rounding is exercised by the claims).
* Instance ids `block-${n}` are modelled by the counter value `n : ℕ`
  (the string wrapper n ↦ "block-" ++ repr n is injective, so distinctness
  of ids coincides with distinctness of the numbers).
* JS exceptions are modelled by `Except String` / `Option`; a method that can
  throw returns the state as mutated up to the throw point, matching the
  in-place mutation of the source.
* `Record<string, unknown>` parameter values are modelled as association
  lists `List (String × JVal)` of JSON values; `JSON.parse (JSON.stringify v)`
  is the identity on this representation.
* DOM side effects (element registration, style updates, console.log) have no
  bearing on any claim and are omitted.
-/

/-- JSON values, used for `defaultValue : unknown`, `parameterValues`
and the serialized snapshot format. -/
inductive JVal where
  | jnull : JVal
  | jbool : Bool → JVal
  | jnum : ℚ → JVal
  | jstr : String → JVal
  | jarr : List JVal → JVal
  | jobj : List (String × JVal) → JVal

/-- src/types/blocks.ts `ParameterType`. -/
inductive ParameterType where
  | text | number | boolean | select | color
deriving DecidableEq

/-- src/types/blocks.ts `SelectOption`. -/
structure SelectOption where
  label : String
  value : String
deriving DecidableEq

/-- src/types/blocks.ts `ValidationRule`. -/
structure ValidationRule where
  min : Option ℚ
  max : Option ℚ
  step : Option ℚ
  pattern : Option String
  required : Bool
deriving DecidableEq

/-- src/types/blocks.ts `ParameterDefinition`. -/
structure ParameterDefinition where
  id : String
  name : String
  type : ParameterType
  defaultValue : JVal
  options : Option (List SelectOption)
  validation : Option ValidationRule

/-- src/types/blocks.ts `BlockDefinition`. -/
structure BlockDefinition where
  id : String
  name : String
  category : String
  description : String
  color : String
  inputType : Option String
  outputType : Option String
  parameters : List ParameterDefinition

/-- The `BlockRegistry`'s `definitions` map, as the list of registered
definitions in registration order (`register` refuses duplicate ids, so a
first-match association list has exactly the `Map` lookup behaviour). -/
def Registry : Type := List BlockDefinition

/-- `BlockRegistry.get`, as a total lookup: `none` models the NotFound throw. -/
def regGet (reg : Registry) (id : String) : Option BlockDefinition :=
  List.find? (fun d => d.id == id) reg

/-- src/types/workspace.ts `BlockInstance` (ids as the counter value, see
module comment). -/
structure BlockInstance where
  id : Nat
  definitionId : String
  columnIndex : Nat
  orderIndex : Nat
  parameterValues : List (String × JVal)

/-- src/types/workspace.ts `Column`. -/
structure Column where
  index : Nat
  blocks : List BlockInstance

/-- src/types/workspace.ts `WorkspaceConfig`. -/
structure WorkspaceConfig where
  columnCount : Nat
  columnWidthPx : ℚ
  blockGapPx : ℚ
  canvasPaddingPx : ℚ
deriving DecidableEq

/-- src/types/workspace.ts `Workspace`. -/
structure Workspace where
  columns : List Column
  config : WorkspaceConfig

/-- Ghost record of one `'workspace:changed'` emission, tagged with the
mutation that emitted it (each WorkspaceManager mutation emits exactly once,
at its `this.events.emit('workspace:changed')` statement). -/
inductive Mut where
  | add : String → Nat → Nat → Mut
  | move : Nat → Nat → Nat → Mut
  | remove : Nat → Mut
  | param : Nat → String → Mut
deriving DecidableEq

/-- The mutable state of a `WorkspaceManager`: the workspace model, the
`nextInstanceId` counter, plus two ghost histories: the change notifications
emitted so far (`emits`) and every id `generateId` ever returned (`genIds`). -/
structure WMState where
  workspace : Workspace
  nextInstanceId : Nat
  emits : List Mut
  genIds : List Nat

/-- The `WorkspaceManager` constructor: `columnCount` empty columns with
`index` = array position, `nextInstanceId = 1`. -/
def initState (config : WorkspaceConfig) : WMState :=
  { workspace :=
      { columns := (List.range config.columnCount).map (fun i => ⟨i, []⟩)
        config := config }
    nextInstanceId := 1
    emits := []
    genIds := [] }

/-- JS `array.splice(i, 0, a)`: insert at position `i`, clamping past-the-end
positions to an append. -/
def jsInsertAt {α : Type} : Nat → α → List α → List α
  | 0, a, l => a :: l
  | _ + 1, a, [] => [a]
  | n + 1, a, x :: xs => x :: jsInsertAt n a xs

/-- JS `array.splice(i, 1)`: remove the element at position `i` if present. -/
def jsRemoveAt {α : Type} : Nat → List α → List α
  | _, [] => []
  | 0, _ :: xs => xs
  | n + 1, x :: xs => x :: jsRemoveAt n xs

/-- `for (let i = k; i < blocks.length; i++) blocks[i].orderIndex = i;`
(`i` is the running absolute position; `reindexFrom` starts it at 0). -/
def reindexAux (k : Nat) : Nat → List BlockInstance → List BlockInstance
  | _, [] => []
  | i, b :: bs =>
      (if k ≤ i then { b with orderIndex := i } else b) :: reindexAux k (i + 1) bs

/-- Renumber `orderIndex := position` for every block at position ≥ `k`. -/
def reindexFrom (k : Nat) (l : List BlockInstance) : List BlockInstance :=
  reindexAux k 0 l

/-- In-place mutation of `columns[ci].blocks` by `f` (every other column
object untouched). -/
def updBlocks (f : List BlockInstance → List BlockInstance) :
    Nat → List Column → List Column
  | _, [] => []
  | 0, c :: cs => { c with blocks := f c.blocks } :: cs
  | n + 1, c :: cs => c :: updBlocks f n cs

/-- `array.findIndex(p)` (as `Option` instead of `-1`). -/
def findIdxA {α : Type} (p : α → Bool) : List α → Option Nat
  | [] => none
  | x :: xs => if p x then some 0 else (findIdxA p xs).map (· + 1)

/-- Result of the "search all columns for the instance" loop shared by
`removeBlock` / `moveBlock` / `getBlock`: the containing column's array
position and object, and the block's array position and object. -/
structure BlockLoc where
  colPos : Nat
  blkPos : Nat
  column : Column
  block : BlockInstance

/-- Scan the columns in order; in each, `findIndex(b => b.id === instanceId)`.
Returns the first hit. -/
def findBlockLoc (instanceId : Nat) : List Column → Option BlockLoc
  | [] => none
  | c :: cs =>
      match findIdxA (fun b => b.id == instanceId) c.blocks with
      | some bi => (c.blocks.get? bi).map (fun b => ⟨0, bi, c, b⟩)
      | none => (findBlockLoc instanceId cs).map
          (fun loc => { loc with colPos := loc.colPos + 1 })

/-- JS object key assignment `o[k] = v`: overwrite in place if the key
exists, else append (insertion order preserved). -/
def setK (k : String) (v : JVal) : List (String × JVal) → List (String × JVal)
  | [] => [(k, v)]
  | (k', v') :: rest =>
      if k' = k then (k', v) :: rest else (k', v') :: setK k v rest

/-- JS object key lookup `o[k]` (first — i.e. only — binding wins). -/
def lookupK (k : String) : List (String × JVal) → Option JVal
  | [] => none
  | (k', v') :: rest => if k' = k then some v' else lookupK k rest

/-- The `parameterValues` loop of `addBlock`: each parameter's id mapped to
its `defaultValue`, in declaration order. -/
def defaultParams (definition : BlockDefinition) : List (String × JVal) :=
  definition.parameters.foldl (fun acc p => setK p.id p.defaultValue acc) []

/-- `WorkspaceManager.addBlock(definitionId, columnIndex, orderIndex)`.
`generateId` runs (and bumps the counter) before the registry lookup, so an
unknown `definitionId` still consumes an id.  An out-of-range `columnIndex`
is the JS `TypeError` on `undefined.blocks`, thrown before any column is
touched. -/
def addBlock (reg : Registry) (definitionId : String)
    (columnIndex orderIndex : Nat) (wm : WMState) :
    Except String BlockInstance × WMState :=
  let id := wm.nextInstanceId
  let wm1 : WMState :=
    { wm with
        nextInstanceId := wm.nextInstanceId + 1
        genIds := wm.genIds ++ [id] }
  match regGet reg definitionId with
  | none =>
      (.error ("No block definition with \"" ++ definitionId ++ "\" found in registry."), wm1)
  | some definition =>
      let inst : BlockInstance :=
        ⟨id, definitionId, columnIndex, orderIndex, defaultParams definition⟩
      if columnIndex < wm1.workspace.columns.length then
        let cols1 := updBlocks
          (fun bs => reindexFrom (orderIndex + 1) (jsInsertAt orderIndex inst bs))
          columnIndex wm1.workspace.columns
        (.ok inst,
          { wm1 with
              workspace := { wm1.workspace with columns := cols1 }
              emits := wm1.emits ++ [.add definitionId columnIndex orderIndex] })
      else
        (.error "TypeError", wm1)

/-- `WorkspaceManager.removeBlock(instanceId)`. -/
def removeBlock (instanceId : Nat) (wm : WMState) : Except String Unit × WMState :=
  match findBlockLoc instanceId wm.workspace.columns with
  | none =>
      (.error ("Block with ID \"" ++ toString instanceId ++ "\" not found."), wm)
  | some loc =>
      let cols1 := updBlocks
        (fun bs => reindexFrom loc.blkPos (jsRemoveAt loc.blkPos bs))
        loc.colPos wm.workspace.columns
      (.ok (),
        { wm with
            workspace := { wm.workspace with columns := cols1 }
            emits := wm.emits ++ [.remove instanceId] })

/-- `WorkspaceManager.moveBlock(instanceId, toColumn, toOrder)`.
The source reads `columns[toColumn]` before the removal but only dereferences
its `.blocks` at the splice after the removal; with `toColumn` out of range
that is a `TypeError` thrown with the block already removed and the source
column not yet renumbered.  Same-column aliasing of `fromColumn` and
`targetColumn` is positional; the same-column tests compare the column
`index` field, exactly as the source does. -/
def moveBlock (instanceId toColumn toOrder : Nat) (wm : WMState) :
    Except String Unit × WMState :=
  match findBlockLoc instanceId wm.workspace.columns with
  | none =>
      (.error ("Block with ID \"" ++ toString instanceId ++ "\" not found."), wm)
  | some loc =>
      let cols1 := updBlocks (jsRemoveAt loc.blkPos) loc.colPos wm.workspace.columns
      if toColumn < wm.workspace.columns.length then
        let adjustedOrder :=
          if loc.column.index = toColumn ∧ loc.blkPos < toOrder then toOrder - 1
          else toOrder
        let block1 : BlockInstance :=
          { loc.block with columnIndex := toColumn, orderIndex := adjustedOrder }
        let cols2 := updBlocks (jsInsertAt adjustedOrder block1) toColumn cols1
        let cols3 := updBlocks (reindexFrom 0) loc.colPos cols2
        let cols4 :=
          if loc.column.index = toColumn then cols3
          else updBlocks (reindexFrom 0) toColumn cols3
        (.ok (),
          { wm with
              workspace := { wm.workspace with columns := cols4 }
              emits := wm.emits ++ [.move instanceId toColumn toOrder] })
      else
        (.error "TypeError",
          { wm with workspace := { wm.workspace with columns := cols1 } })

/-- `WorkspaceManager.copyBlock(instanceId)`: deep-copy the source's
`parameterValues` (`JSON.parse(JSON.stringify(...))` — the identity on this
representation), `addBlock` at `(source.columnIndex, source.orderIndex + 1)`,
then overwrite the new block's `parameterValues` with the copy.  The returned
object aliases the array element `addBlock` spliced in, i.e. the element at
position `min (source.orderIndex + 1) (length before the splice)` of column
`source.columnIndex`; the overwrite mutates that element and emits nothing. -/
def copyBlock (reg : Registry) (instanceId : Nat) (wm : WMState) :
    Except String BlockInstance × WMState :=
  match findBlockLoc instanceId wm.workspace.columns with
  | none =>
      (.error ("Block with ID \"" ++ toString instanceId ++ "\" not found."), wm)
  | some loc =>
      let copiedParams := loc.block.parameterValues
      let lenBefore :=
        ((wm.workspace.columns.get? loc.block.columnIndex).map
          (fun c => c.blocks.length)).getD 0
      match addBlock reg loc.block.definitionId loc.block.columnIndex
          (loc.block.orderIndex + 1) wm with
      | (.error e, wm1) => (.error e, wm1)
      | (.ok copy, wm1) =>
          let copy1 := { copy with parameterValues := copiedParams }
          let pos := min (loc.block.orderIndex + 1) lenBefore
          let cols2 := updBlocks (fun bs => bs.set pos copy1) copy.columnIndex
            wm1.workspace.columns
          (.ok copy1,
            { wm1 with workspace := { wm1.workspace with columns := cols2 } })

/-- `WorkspaceManager.updateParameter(instanceId, paramId, value)`. -/
def updateParameter (instanceId : Nat) (paramId : String) (value : JVal)
    (wm : WMState) : Except String Unit × WMState :=
  match findBlockLoc instanceId wm.workspace.columns with
  | none =>
      (.error ("Block with ID \"" ++ toString instanceId ++ "\" not found."), wm)
  | some loc =>
      let b1 := { loc.block with
        parameterValues := setK paramId value loc.block.parameterValues }
      let cols1 := updBlocks (fun bs => bs.set loc.blkPos b1) loc.colPos
        wm.workspace.columns
      (.ok (),
        { wm with
            workspace := { wm.workspace with columns := cols1 }
            emits := wm.emits ++ [.param instanceId paramId] })

/-- `WorkspaceManager.getBlock(instanceId)` (throws if absent). -/
def getBlock (instanceId : Nat) (wm : WMState) : Except String BlockInstance :=
  match findBlockLoc instanceId wm.workspace.columns with
  | none =>
      .error ("Block with ID \"" ++ toString instanceId ++ "\" not found.")
  | some loc => .ok loc.block

/-- `LayoutEngine.HEADER_HEIGHT_PX`. -/
def HEADER_HEIGHT_PX : ℚ := 36

/-- `LayoutEngine.PARAM_ROW_HEIGHT_PX`. -/
def PARAM_ROW_HEIGHT_PX : ℚ := 32

/-- `LayoutEngine.BLOCK_PADDING_PX`. -/
def BLOCK_PADDING_PX : ℚ := 8

/-- `LayoutEngine.COLUMN_GAP_PX`. -/
def COLUMN_GAP_PX : ℚ := 16

/-- `LayoutEngine.COLUMN_HEADER_HEIGHT_PX`. -/
def COLUMN_HEADER_HEIGHT_PX : ℚ := 35

/-- `LayoutEngine.calculateColumnX(columnIndex, config)`. -/
def calculateColumnX (columnIndex : Nat) (config : WorkspaceConfig) : ℚ :=
  config.canvasPaddingPx + columnIndex * (config.columnWidthPx + COLUMN_GAP_PX)

/-- `LayoutEngine.getBlockHeight(block)`; `none` models the registry
NotFound throw. -/
def getBlockHeight (reg : Registry) (block : BlockInstance) : Option ℚ :=
  (regGet reg block.definitionId).map
    (fun d => HEADER_HEIGHT_PX + d.parameters.length * PARAM_ROW_HEIGHT_PX + BLOCK_PADDING_PX)

/-- `LayoutEngine.calculateBlockY(orderIndex, column, config)`: start at
`COLUMN_HEADER_HEIGHT_PX + canvasPaddingPx` and add `height + blockGapPx`
for every block at positions `0..orderIndex-1`.  An `orderIndex` past the
end would dereference `undefined` in the loop (throw, modelled `none`), and
an unresolvable block rethrows the registry NotFound. -/
def calculateBlockY (reg : Registry) (orderIndex : Nat) (column : Column)
    (config : WorkspaceConfig) : Option ℚ :=
  if orderIndex ≤ column.blocks.length then
    ((column.blocks.take orderIndex).mapM (getBlockHeight reg)).map
      (fun hs =>
        COLUMN_HEADER_HEIGHT_PX + config.canvasPaddingPx
          + (hs.map (· + config.blockGapPx)).sum)
  else none

/-- The insertion-slot loop of `LayoutEngine.getDropTarget`, from position
`i` upward: the first block whose vertical midpoint lies strictly below the
cursor gives slot `i` with indicator `blockY - blockGapPx / 2`; if the cursor
is below every midpoint the slot is `blocks.length` with the end-of-column
offset as indicator (no half-gap adjustment).  `none` models a registry
NotFound throw escaping the loop. -/
def dropSlotAux (reg : Registry) (config : WorkspaceConfig) (column : Column)
    (mouseY : ℚ) (i : Nat) : Option (Nat × ℚ) :=
  if h : i < column.blocks.length then
    match calculateBlockY reg i column config,
        getBlockHeight reg (column.blocks.get ⟨i, h⟩) with
    | some blockY, some blockHeight =>
        if mouseY < blockY + blockHeight / 2 then
          some (i, blockY - config.blockGapPx / 2)
        else
          dropSlotAux reg config column mouseY (i + 1)
    | _, _ => none
  else
    (calculateBlockY reg column.blocks.length column config).map
      (fun y => (column.blocks.length, y))
termination_by column.blocks.length - i

/-- src/types/drag.ts `DropTarget`. -/
structure DropTarget where
  columnIndex : Nat
  orderIndex : Nat
  indicatorY : ℚ
deriving DecidableEq

/-- `LayoutEngine.getDropTarget(mouseX, mouseY, workspace)`.  The outer
`Option` is the throw channel (registry NotFound inside the scan, or the
JS `TypeError` of indexing the columns array at a negative position when
`columnWidthPx + COLUMN_GAP_PX` fails to be positive); `some none` is the
source's `return null`.  `posInColumn` is JS `adjustedX % columnWidth`,
which for `adjustedX ≥ 0` and `columnWidth > 0` equals
`adjustedX - ⌊adjustedX / columnWidth⌋ * columnWidth`. -/
def getDropTarget (reg : Registry) (mouseX mouseY : ℚ) (workspace : Workspace) :
    Option (Option DropTarget) :=
  let adjustedX := mouseX - workspace.config.canvasPaddingPx
  if adjustedX < 0 then some none
  else
    let columnWidth := workspace.config.columnWidthPx + COLUMN_GAP_PX
    let columnIndex : ℤ := Int.floor (adjustedX / columnWidth)
    let posInColumn := adjustedX - columnIndex * columnWidth
    if workspace.config.columnWidthPx < posInColumn
        ∨ (workspace.columns.length : ℤ) ≤ columnIndex then
      some none
    else
      match workspace.columns.get? columnIndex.toNat with
      | none => none
      | some column =>
          (dropSlotAux reg workspace.config column mouseY 0).map
            (fun si => some ⟨columnIndex.toNat, si.1, si.2⟩)

/-- Pure block height used to phrase layout specifications: the value
`getBlockHeight` returns whenever the block resolves (0 as the dummy on the
unresolvable — i.e. throwing — case, which resolution hypotheses rule out). -/
def heightD (reg : Registry) (block : BlockInstance) : ℚ :=
  match regGet reg block.definitionId with
  | some d => HEADER_HEIGHT_PX + d.parameters.length * PARAM_ROW_HEIGHT_PX + BLOCK_PADDING_PX
  | none => 0

/-- Pure block y-offset used to phrase layout specifications (agrees with
`calculateBlockY` on resolvable columns). -/
def blockYD (reg : Registry) (orderIndex : Nat) (column : Column)
    (config : WorkspaceConfig) : ℚ :=
  COLUMN_HEADER_HEIGHT_PX + config.canvasPaddingPx
    + ((column.blocks.take orderIndex).map (fun b => heightD reg b + config.blockGapPx)).sum

/-- Pure vertical midpoint of the block at position `i` (0 past the end). -/
def midYD (reg : Registry) (column : Column) (config : WorkspaceConfig) (i : Nat) : ℚ :=
  match column.blocks.get? i with
  | some b => blockYD reg i column config + heightD reg b / 2
  | none => 0

/-- Every block of the column resolves in the registry. -/
def ResolvesCol (reg : Registry) (column : Column) : Prop :=
  ∀ b ∈ column.blocks, (regGet reg b.definitionId).isSome

/-- Every block of the workspace resolves in the registry. -/
def ResolvesWs (reg : Registry) (workspace : Workspace) : Prop :=
  ∀ c ∈ workspace.columns, ResolvesCol reg c

/-- src/types/drag.ts drag source discriminator. -/
inductive DragSource where
  | palette | canvas
deriving DecidableEq

/-- src/types/drag.ts `DragState`. -/
structure DragState where
  source : DragSource
  definitionId : String
  instanceId : Option Nat
  originColumn : Option Nat
  originOrder : Option Nat
  mouseX : ℚ
  mouseY : ℚ
  currentDropTarget : Option DropTarget

/-- The mutable state of a `DragManager`: the in-flight drag (if any) and the
registered canvas element's bounding rect origin (used to convert viewport to
canvas-relative coordinates).  Ghost/indicator/block elements are pure DOM
concerns and are omitted. -/
structure DMState where
  currentDrag : Option DragState
  canvasRect : Option (ℚ × ℚ)

/-- `DragManager.startPaletteDrag(definitionId, mouseX, mouseY)`
(the registry lookup for the ghost label can throw). -/
def startPaletteDrag (reg : Registry) (definitionId : String) (mouseX mouseY : ℚ)
    (dm : DMState) : Except String DMState :=
  match regGet reg definitionId with
  | none => .error ("No block definition with \"" ++ definitionId ++ "\" found in registry.")
  | some _ =>
      .ok { dm with currentDrag := some (
        { source := .palette, definitionId := definitionId, instanceId := none
          originColumn := none, originOrder := none
          mouseX := mouseX, mouseY := mouseY, currentDropTarget := none }) }

/-- `DragManager.startCanvasDrag(instanceId, mouseX, mouseY)`. -/
def startCanvasDrag (reg : Registry) (wm : WMState) (instanceId : Nat)
    (mouseX mouseY : ℚ) (dm : DMState) : Except String DMState :=
  match getBlock instanceId wm with
  | .error e => .error e
  | .ok block =>
      match regGet reg block.definitionId with
      | none => .error ("No block definition with \"" ++ block.definitionId ++ "\" found in registry.")
      | some _ =>
          .ok { dm with currentDrag := some (
            { source := .canvas, definitionId := block.definitionId
              instanceId := some instanceId
              originColumn := some block.columnIndex
              originOrder := some block.orderIndex
              mouseX := mouseX, mouseY := mouseY, currentDropTarget := none }) }

/-- `DragManager.updateDrag(mouseX, mouseY)`: early return while idle;
otherwise record the cursor, convert to canvas-relative coordinates, and
recompute the candidate drop target via `LayoutEngine.getDropTarget`.  The
workspace manager is threaded through untouched — `updateDrag` only reads it
(`getWorkspace()`). -/
def updateDrag (reg : Registry) (mouseX mouseY : ℚ) (dm : DMState) (wm : WMState) :
    Except String DMState × WMState :=
  match dm.currentDrag with
  | none => (.ok dm, wm)
  | some st =>
      let st1 := { st with mouseX := mouseX, mouseY := mouseY }
      let canvasX := match dm.canvasRect with | some r => mouseX - r.1 | none => mouseX
      let canvasY := match dm.canvasRect with | some r => mouseY - r.2 | none => mouseY
      match getDropTarget reg canvasX canvasY wm.workspace with
      | none => (.error "TypeError", wm)
      | some target =>
          (.ok { dm with currentDrag := some { st1 with currentDropTarget := target } }, wm)

/-- `DragManager.cancelDrag()`: restore visuals, clear the drag; the
workspace manager is never touched. -/
def cancelDrag (dm : DMState) (wm : WMState) : Except String DMState × WMState :=
  (.ok { dm with currentDrag := none }, wm)

/-- `DragManager.endDrag()`: no-op while idle; with no candidate target it
calls `cancelDrag`; otherwise a palette-origin drag performs the single
`addBlock` and a canvas-origin drag the single `moveBlock` (a canvas drag
whose state lost its `instanceId` skips the mutation and just cleans up). -/
def endDrag (reg : Registry) (dm : DMState) (wm : WMState) :
    Except String DMState × WMState :=
  match dm.currentDrag with
  | none => (.ok dm, wm)
  | some st =>
      match st.currentDropTarget with
      | none => cancelDrag dm wm
      | some target =>
          match st.source with
          | .palette =>
              match addBlock reg st.definitionId target.columnIndex target.orderIndex wm with
              | (.error e, wm1) => (.error e, wm1)
              | (.ok _, wm1) => (.ok { dm with currentDrag := none }, wm1)
          | .canvas =>
              match st.instanceId with
              | some iid =>
                  match moveBlock iid target.columnIndex target.orderIndex wm with
                  | (.error e, wm1) => (.error e, wm1)
                  | (.ok _, wm1) => (.ok { dm with currentDrag := none }, wm1)
              | none => (.ok { dm with currentDrag := none }, wm)

/-- `DragManager.isDragging()`. -/
def isDragging (dm : DMState) : Bool :=
  dm.currentDrag.isSome

/-- The TS `BlockInstance` as the serializer sees it (string ids, JSON
parameter values). -/
structure SBlockInstance where
  id : String
  definitionId : String
  columnIndex : Nat
  orderIndex : Nat
  parameterValues : List (String × JVal)

/-- The TS `Column` on the serializer side. -/
structure SColumn where
  index : Nat
  blocks : List SBlockInstance

/-- The TS `WorkspaceConfig` as the serializer round-trips it (all four
fields are plain JSON numbers on the wire). -/
structure SConfig where
  columnCount : ℚ
  columnWidthPx : ℚ
  blockGapPx : ℚ
  canvasPaddingPx : ℚ

/-- The TS `Workspace` on the serializer side. -/
structure SWorkspace where
  columns : List SColumn
  config : SConfig

/-- `SerializationService.serialize(workspace)`: the JSON value passed to
`JSON.stringify` — `version`, the four config fields, and per column the
block list with only `id`, `definitionId`, `parameterValues`
(`columnIndex`/`orderIndex` omitted).  `JSON.stringify` followed by
`JSON.parse` is the identity on this value. -/
def serializeV (workspace : SWorkspace) : JVal :=
  .jobj
    [ ("version", .jnum 1)
    , ("config", .jobj
        [ ("columnCount", .jnum workspace.config.columnCount)
        , ("columnWidthPx", .jnum workspace.config.columnWidthPx)
        , ("blockGapPx", .jnum workspace.config.blockGapPx)
        , ("canvasPaddingPx", .jnum workspace.config.canvasPaddingPx) ])
    , ("columns", .jarr (workspace.columns.map (fun column =>
        .jarr (column.blocks.map (fun block =>
          .jobj
            [ ("id", .jstr block.id)
            , ("definitionId", .jstr block.definitionId)
            , ("parameterValues", .jobj block.parameterValues) ]))))) ]

/-- JS property access `v.k` on a parsed JSON value: throws `TypeError` on
`null`, yields the property of an object, and `undefined` (here `none`) on
every other value. -/
def jsProp (v : JVal) (k : String) : Except String (Option JVal) :=
  match v with
  | .jnull => .error "TypeError"
  | .jobj kvs => .ok (lookupK k kvs)
  | _ => .ok none

/-- JS property access on a possibly-`undefined` value (`undefined.k` is a
`TypeError`). -/
def jsPropU (v : Option JVal) (k : String) : Except String (Option JVal) :=
  match v with
  | none => .error "TypeError"
  | some v' => jsProp v' k

/-- What `deserialize` actually stores for one block: the raw (unchecked)
`id` / `definitionId` / `parameterValues` property values, and the position-
derived `columnIndex` / `orderIndex`. -/
structure RBlock where
  id : Option JVal
  definitionId : Option JVal
  columnIndex : Nat
  orderIndex : Nat
  parameterValues : Option JVal

/-- A reconstructed column: `index` from array position. -/
structure RColumn where
  index : Nat
  blocks : List RBlock

/-- The reconstructed config: the four raw property values (unchecked). -/
structure RConfig where
  columnCount : Option JVal
  columnWidthPx : Option JVal
  blockGapPx : Option JVal
  canvasPaddingPx : Option JVal

/-- The workspace object `deserialize` returns, before any typing
assumptions. -/
structure RWorkspace where
  columns : List RColumn
  config : RConfig

/-- The inner `blockArray.map((blockData, orderIndex) => ...)` of
`deserialize`: for each entry, evaluate `blockData.definitionId` (TypeError
on `null`), `registry.get` it (NotFound unless it is a registered string
id), then build the instance from the raw properties and the positions. -/
def deserializeBlocks (reg : Registry) (columnIndex : Nat) :
    Nat → List JVal → Except String (List RBlock)
  | _, [] => pure []
  | orderIndex, blockData :: rest => do
      let defIdV ← jsProp blockData "definitionId"
      match defIdV with
      | some (.jstr s) =>
          match regGet reg s with
          | none => .error ("No block definition with \"" ++ s ++ "\" found in registry.")
          | some _ => do
              let idV ← jsProp blockData "id"
              let pvV ← jsProp blockData "parameterValues"
              let rest' ← deserializeBlocks reg columnIndex (orderIndex + 1) rest
              pure (⟨idV, defIdV, columnIndex, orderIndex, pvV⟩ :: rest')
      | _ => .error "No block definition found in registry."

/-- The outer `data.columns.map((blockArray, columnIndex) => ...)` of
`deserialize`: each entry must itself be an array (else its `.map` is a
TypeError). -/
def deserializeCols (reg : Registry) :
    Nat → List JVal → Except String (List RColumn)
  | _, [] => pure []
  | columnIndex, colV :: rest => do
      match colV with
      | .jarr blockArr => do
          let blocks ← deserializeBlocks reg columnIndex 0 blockArr
          let rest' ← deserializeCols reg (columnIndex + 1) rest
          pure (⟨columnIndex, blocks⟩ :: rest')
      | _ => .error "TypeError"

/-- `SerializationService.deserialize` after `JSON.parse`: reject a
`version` property other than the number 1, read the four config properties
(a missing or `null` `config` is the JS TypeError), then map over
`data.columns` (TypeError unless an array of arrays). -/
def deserializeV (data : JVal) (reg : Registry) : Except String RWorkspace := do
  let versionV ← jsProp data "version"
  match versionV with
  | some (.jnum q) =>
      if q = 1 then do
        let configV ← jsProp data "config"
        let columnCount ← jsPropU configV "columnCount"
        let columnWidthPx ← jsPropU configV "columnWidthPx"
        let blockGapPx ← jsPropU configV "blockGapPx"
        let canvasPaddingPx ← jsPropU configV "canvasPaddingPx"
        let columnsV ← jsProp data "columns"
        match columnsV with
        | some (.jarr colArr) => do
            let columns ← deserializeCols reg 0 colArr
            pure ⟨columns, ⟨columnCount, columnWidthPx, blockGapPx, canvasPaddingPx⟩⟩
        | _ => .error "TypeError"
      else .error "Unsupported version"
  | _ => .error "Unsupported version"

/-- Strict numeric reading of a raw property value (default 0); the typed
readers below are exact on every output `deserialize` can actually produce
from a serialized workspace. -/
def asNumV : Option JVal → ℚ
  | some (.jnum q) => q
  | _ => 0

/-- Strict string reading of a raw property value (default `""`). -/
def asStrV : Option JVal → String
  | some (.jstr s) => s
  | _ => ""

/-- Strict object reading of a raw property value (default `[]`). -/
def asObjV : Option JVal → List (String × JVal)
  | some (.jobj kvs) => kvs
  | _ => []

/-- Typed reading of one raw deserialized block. -/
def toSBlock (b : RBlock) : SBlockInstance :=
  ⟨asStrV b.id, asStrV b.definitionId, b.columnIndex, b.orderIndex,
    asObjV b.parameterValues⟩

/-- Typed reading of one raw deserialized column. -/
def toSColumn (c : RColumn) : SColumn :=
  ⟨c.index, c.blocks.map toSBlock⟩

/-- Strict typed reading of a raw deserialized workspace. -/
def toSWorkspace (r : RWorkspace) : SWorkspace :=
  { columns := r.columns.map toSColumn
    config :=
      ⟨asNumV r.config.columnCount, asNumV r.config.columnWidthPx,
        asNumV r.config.blockGapPx, asNumV r.config.canvasPaddingPx⟩ }

lemma jsInsertAt_length {α : Type} (n : Nat) (a : α) (l : List α) :
    (jsInsertAt n a l).length = l.length + 1 := by
  induction l generalizing n with
  | nil => cases n <;> simp [jsInsertAt]
  | cons x xs ih => cases n <;> simp [jsInsertAt, ih]

lemma jsInsertAt_get?_lt {α : Type} {n j : Nat} (a : α) (l : List α)
    (hn : n ≤ l.length) (h : j < n) :
    (jsInsertAt n a l).get? j = l.get? j := by
  induction l generalizing n j with
  | nil =>
      have : n = 0 := Nat.le_zero.mp hn
      subst this; exact absurd h (Nat.not_lt_zero j)
  | cons x xs ih =>
      cases n with
      | zero => exact absurd h (Nat.not_lt_zero j)
      | succ m =>
          cases j with
          | zero => simp [jsInsertAt]
          | succ j' =>
              simp only [jsInsertAt, List.get?_cons_succ]
              exact ih (Nat.le_of_succ_le_succ hn) (Nat.lt_of_succ_lt_succ h)

lemma jsInsertAt_get?_self {α : Type} {n : Nat} (a : α) (l : List α) (h : n ≤ l.length) :
    (jsInsertAt n a l).get? n = some a := by
  induction l generalizing n with
  | nil =>
      have : n = 0 := Nat.le_zero.mp h
      subst this; simp [jsInsertAt, List.get?]
  | cons x xs ih =>
      cases n with
      | zero => simp [jsInsertAt, List.get?]
      | succ m =>
          simpa [jsInsertAt, List.get?] using ih (Nat.le_of_succ_le_succ h)

lemma jsInsertAt_get?_gt {α : Type} {n j : Nat} (a : α) (l : List α)
    (hn : n ≤ l.length) (h : n < j) :
    (jsInsertAt n a l).get? j = l.get? (j - 1) := by
  induction l generalizing n j with
  | nil =>
      have : n = 0 := Nat.le_zero.mp hn
      subst this
      cases j with
      | zero => exact absurd h (Nat.lt_irrefl 0)
      | succ j' => simp [jsInsertAt]
  | cons x xs ih =>
      cases n with
      | zero =>
          cases j with
          | zero => exact absurd h (Nat.lt_irrefl 0)
          | succ j' => simp [jsInsertAt]
      | succ m =>
          cases j with
          | zero => exact absurd h (Nat.not_lt_zero _)
          | succ j' =>
              cases j' with
              | zero => exact absurd (Nat.lt_of_succ_lt_succ h) (Nat.not_lt_zero m)
              | succ j'' =>
                  simp only [jsInsertAt, List.get?_cons_succ, Nat.add_sub_cancel]
                  rw [ih (Nat.le_of_succ_le_succ hn) (Nat.lt_of_succ_lt_succ h)]
                  simp only [Nat.add_sub_cancel, List.get?_cons_succ]

lemma jsInsertAt_perm {α : Type} (n : Nat) (a : α) (l : List α) :
    List.Perm (jsInsertAt n a l) (a :: l) := by
  induction l generalizing n with
  | nil => cases n <;> simp [jsInsertAt]
  | cons x xs ih =>
      cases n with
      | zero => simp [jsInsertAt]
      | succ m =>
          show List.Perm (x :: jsInsertAt m a xs) (a :: x :: xs)
          exact ((ih m).cons x).trans (List.Perm.swap a x xs)

lemma jsRemoveAt_length {α : Type} {n : Nat} {l : List α} (h : n < l.length) :
    (jsRemoveAt n l).length = l.length - 1 := by
  induction l generalizing n with
  | nil => simp at h
  | cons x xs ih =>
      cases n with
      | zero => simp [jsRemoveAt]
      | succ m =>
          have := ih (Nat.lt_of_succ_lt_succ h)
          have hx : 0 < xs.length := Nat.lt_of_le_of_lt (Nat.zero_le m) (Nat.lt_of_succ_lt_succ h)
          simp only [jsRemoveAt, List.length_cons, this]
          omega

lemma jsRemoveAt_get?_lt {α : Type} {n j : Nat} (l : List α) (h : j < n) :
    (jsRemoveAt n l).get? j = l.get? j := by
  induction l generalizing n j with
  | nil => simp [jsRemoveAt]
  | cons x xs ih =>
      cases n with
      | zero => exact absurd h (Nat.not_lt_zero j)
      | succ m =>
          cases j with
          | zero => simp [jsRemoveAt, List.get?]
          | succ j' => simpa [jsRemoveAt, List.get?] using ih (Nat.lt_of_succ_lt_succ h)

lemma jsRemoveAt_get?_ge {α : Type} {n j : Nat} (l : List α) (hn : n < l.length) (h : n ≤ j) :
    (jsRemoveAt n l).get? j = l.get? (j + 1) := by
  induction l generalizing n j with
  | nil => simp at hn
  | cons x xs ih =>
      cases n with
      | zero => simp [jsRemoveAt, List.get?]
      | succ m =>
          cases j with
          | zero => exact absurd h (Nat.not_succ_le_zero m)
          | succ j' =>
              simpa [jsRemoveAt, List.get?] using
                ih (Nat.lt_of_succ_lt_succ hn) (Nat.le_of_succ_le_succ h)

lemma jsRemoveAt_perm {α : Type} {n : Nat} {l : List α} {b : α}
    (h : l.get? n = some b) : List.Perm l (b :: jsRemoveAt n l) := by
  induction l generalizing n with
  | nil => simp at h
  | cons x xs ih =>
      cases n with
      | zero =>
          simp only [List.get?_cons_zero, Option.some.injEq] at h
          subst h
          simp [jsRemoveAt]
      | succ m =>
          simp only [List.get?_cons_succ] at h
          show List.Perm (x :: xs) (b :: x :: jsRemoveAt m xs)
          exact ((ih h).cons x).trans (List.Perm.swap b x _)

lemma jsRemoveAt_of_le {α : Type} {n : Nat} {l : List α} (h : l.length ≤ n) :
    jsRemoveAt n l = l := by
  induction l generalizing n with
  | nil => simp [jsRemoveAt]
  | cons x xs ih =>
      cases n with
      | zero => simp at h
      | succ m => simp [jsRemoveAt, ih (Nat.le_of_succ_le_succ h)]

lemma reindexAux_length (k : Nat) : ∀ (i : Nat) (l : List BlockInstance),
    (reindexAux k i l).length = l.length := by
  intro i l
  induction l generalizing i with
  | nil => simp [reindexAux]
  | cons b bs ih => simp [reindexAux, ih]

lemma reindexAux_get? (k : Nat) : ∀ (i j : Nat) (l : List BlockInstance),
    (reindexAux k i l).get? j =
      (l.get? j).map (fun b => if k ≤ i + j then { b with orderIndex := i + j } else b) := by
  intro i j l
  induction l generalizing i j with
  | nil => simp [reindexAux, List.get?]
  | cons b bs ih =>
      cases j with
      | zero => simp [reindexAux, List.get?]
      | succ j' =>
          simp only [reindexAux, List.get?, ih (i + 1) j']
          have : i + 1 + j' = i + (j' + 1) := by omega
          rw [this]

lemma reindexFrom_get? (k j : Nat) (l : List BlockInstance) :
    (reindexFrom k l).get? j =
      (l.get? j).map (fun b => if k ≤ j then { b with orderIndex := j } else b) := by
  simpa using reindexAux_get? k 0 j l

lemma reindexFrom_length (k : Nat) (l : List BlockInstance) :
    (reindexFrom k l).length = l.length :=
  reindexAux_length k 0 l

lemma reindexAux_map {β : Type} (g : BlockInstance → β)
    (hg : ∀ (b : BlockInstance) (i : Nat), g { b with orderIndex := i } = g b)
    (k : Nat) : ∀ (i : Nat) (l : List BlockInstance),
    (reindexAux k i l).map g = l.map g := by
  intro i l
  induction l generalizing i with
  | nil => simp [reindexAux]
  | cons b bs ih =>
      simp only [reindexAux, List.map_cons, ih]
      by_cases h : k ≤ i <;> simp [h, hg]

lemma reindexFrom_map {β : Type} (g : BlockInstance → β)
    (hg : ∀ (b : BlockInstance) (i : Nat), g { b with orderIndex := i } = g b)
    (k : Nat) (l : List BlockInstance) :
    (reindexFrom k l).map g = l.map g :=
  reindexAux_map g hg k 0 l

lemma updBlocks_length (f : List BlockInstance → List BlockInstance) :
    ∀ (ci : Nat) (cols : List Column), (updBlocks f ci cols).length = cols.length := by
  intro ci cols
  induction cols generalizing ci with
  | nil => simp [updBlocks]
  | cons c cs ih => cases ci <;> simp [updBlocks, ih]

lemma updBlocks_get?_self (f : List BlockInstance → List BlockInstance) :
    ∀ (cols : List Column) (ci : Nat),
    (updBlocks f ci cols).get? ci = (cols.get? ci).map (fun c => { c with blocks := f c.blocks }) := by
  intro cols
  induction cols with
  | nil => intro ci; simp [updBlocks]
  | cons c cs ih =>
      intro ci
      cases ci with
      | zero => simp [updBlocks]
      | succ ci' =>
          simp only [updBlocks, List.get?_cons_succ]
          exact ih ci'

lemma updBlocks_get?_ne (f : List BlockInstance → List BlockInstance) :
    ∀ (cols : List Column) (ci j : Nat), j ≠ ci →
    (updBlocks f ci cols).get? j = cols.get? j := by
  intro cols
  induction cols with
  | nil => intro ci j _; simp [updBlocks]
  | cons c cs ih =>
      intro ci j hne
      cases ci with
      | zero =>
          cases j with
          | zero => exact absurd rfl hne
          | succ j' => simp [updBlocks]
      | succ ci' =>
          cases j with
          | zero => simp [updBlocks]
          | succ j' =>
              simp only [updBlocks, List.get?_cons_succ]
              exact ih ci' j' (fun h => hne (by rw [h]))

lemma updBlocks_of_le (f : List BlockInstance → List BlockInstance) :
    ∀ {ci : Nat} {cols : List Column}, cols.length ≤ ci → updBlocks f ci cols = cols := by
  intro ci cols h
  induction cols generalizing ci with
  | nil => simp [updBlocks]
  | cons c cs ih =>
      cases ci with
      | zero => simp at h
      | succ ci' => simp [updBlocks, ih (Nat.le_of_succ_le_succ h)]

lemma setq_self {α : Type} : ∀ (l : List α) (n : Nat) (a : α), n < l.length →
    (l.set n a).get? n = some a := by
  intro l
  induction l with
  | nil => intro n a h; simp at h
  | cons x xs ih =>
      intro n a h
      cases n with
      | zero => simp [List.set, List.get?]
      | succ m => simpa [List.set, List.get?] using ih m a (Nat.lt_of_succ_lt_succ h)

lemma setq_ne {α : Type} : ∀ (l : List α) (n j : Nat) (a : α), j ≠ n →
    (l.set n a).get? j = l.get? j := by
  intro l
  induction l with
  | nil => intro n j a _; simp
  | cons x xs ih =>
      intro n j a hne
      cases n with
      | zero =>
          cases j with
          | zero => exact absurd rfl hne
          | succ j' => simp [List.set, List.get?]
      | succ m =>
          cases j with
          | zero => simp [List.set, List.get?]
          | succ j' =>
              simpa [List.set, List.get?] using ih m j' a (fun h => hne (by simp [h]))

lemma set_map_of {α β : Type} (g : α → β) :
    ∀ (l : List α) (n : Nat) (x y : α), l.get? n = some x → g y = g x →
    (l.set n y).map g = l.map g := by
  intro l
  induction l with
  | nil => intro n x y h _; simp [List.get?] at h
  | cons a as ih =>
      intro n x y h hg
      cases n with
      | zero =>
          simp only [List.get?] at h
          cases h
          simp [List.set, hg]
      | succ m =>
          simp only [List.get?] at h
          simp [List.set, ih m x y h hg]

lemma findIdxA_some {α : Type} {p : α → Bool} :
    ∀ {l : List α} {i : Nat}, findIdxA p l = some i →
    ∃ x, l.get? i = some x ∧ p x = true := by
  intro l
  induction l with
  | nil => intro i h; simp [findIdxA] at h
  | cons x xs ih =>
      intro i h
      cases hp : p x with
      | true =>
          simp only [findIdxA] at h
          rw [if_pos hp] at h
          cases h
          exact ⟨x, by simp, hp⟩
      | false =>
          simp only [findIdxA] at h
          rw [if_neg (by simp [hp])] at h
          match hrec : findIdxA p xs with
          | none => rw [hrec] at h; simp at h
          | some i' =>
              rw [hrec] at h
              simp only [Option.map_some'] at h
              cases h
              obtain ⟨y, hy, hpy⟩ := ih hrec
              exact ⟨y, by simpa using hy, hpy⟩

lemma findIdxA_first {α : Type} {p : α → Bool} :
    ∀ {l : List α} {i : Nat}, findIdxA p l = some i →
    ∀ j, j < i → ∀ y, l.get? j = some y → p y = false := by
  intro l
  induction l with
  | nil => intro i h; simp [findIdxA] at h
  | cons x xs ih =>
      intro i h j hj y hy
      cases hp : p x with
      | true =>
          simp only [findIdxA] at h
          rw [if_pos hp] at h
          cases h
          exact absurd hj (Nat.not_lt_zero j)
      | false =>
          simp only [findIdxA] at h
          rw [if_neg (by simp [hp])] at h
          match hrec : findIdxA p xs with
          | none => rw [hrec] at h; simp at h
          | some i' =>
              rw [hrec] at h
              simp only [Option.map_some'] at h
              cases h
              cases j with
              | zero =>
                  simp only [List.get?_cons_zero, Option.some.injEq] at hy
                  subst hy
                  exact hp
              | succ j' =>
                  simp only [List.get?_cons_succ] at hy
                  exact ih hrec j' (Nat.lt_of_succ_lt_succ hj) y hy

lemma findIdxA_none {α : Type} {p : α → Bool} :
    ∀ {l : List α}, findIdxA p l = none → ∀ x ∈ l, p x = false := by
  intro l
  induction l with
  | nil => intro _ x hx; simp at hx
  | cons a as ih =>
      intro h x hx
      cases hp : p a with
      | true => simp [findIdxA, hp] at h
      | false =>
          simp only [findIdxA] at h
          rw [if_neg (by simp [hp])] at h
          match hrec : findIdxA p as with
          | some i' => rw [hrec] at h; simp at h
          | none =>
              rcases List.mem_cons.mp hx with h1 | h1
              · subst h1; exact hp
              · exact ih hrec x h1

lemma findIdxA_intro {α : Type} {p : α → Bool} :
    ∀ {l : List α} {i : Nat} {x : α}, l.get? i = some x → p x = true →
    (∀ j, j < i → ∀ y, l.get? j = some y → p y = false) →
    findIdxA p l = some i := by
  intro l
  induction l with
  | nil => intro i x h; simp at h
  | cons a as ih =>
      intro i x hget hp hfirst
      cases i with
      | zero =>
          simp only [List.get?_cons_zero, Option.some.injEq] at hget
          subst hget
          simp [findIdxA, hp]
      | succ i' =>
          have ha : p a = false := hfirst 0 (Nat.succ_pos i') a (by simp)
          simp only [List.get?_cons_succ] at hget
          have hres : findIdxA p as = some i' :=
            ih hget hp (fun j hj y hy =>
              hfirst (j + 1) (Nat.succ_lt_succ hj) y (by simpa using hy))
          simp [findIdxA, ha, hres]

lemma findBlockLoc_some {instanceId : Nat} :
    ∀ {cols : List Column} {loc : BlockLoc}, findBlockLoc instanceId cols = some loc →
    cols.get? loc.colPos = some loc.column
      ∧ loc.column.blocks.get? loc.blkPos = some loc.block
      ∧ loc.block.id = instanceId := by
  intro cols
  induction cols with
  | nil => intro loc h; simp [findBlockLoc] at h
  | cons c cs ih =>
      intro loc h
      match hidx : findIdxA (fun b => b.id == instanceId) c.blocks with
      | some bi =>
          obtain ⟨b, hb, hpb⟩ := findIdxA_some hidx
          simp only [findBlockLoc, hidx, hb, Option.map_some', Option.some.injEq] at h
          subst h
          refine ⟨by simp, by simpa using hb, ?_⟩
          simpa using hpb
      | none =>
          simp only [findBlockLoc, hidx] at h
          match hrec : findBlockLoc instanceId cs with
          | none => rw [hrec] at h; simp at h
          | some loc' =>
              rw [hrec] at h
              simp only [Option.map_some', Option.some.injEq] at h
              subst h
              obtain ⟨h1, h2, h3⟩ := ih hrec
              exact ⟨by simpa using h1, h2, h3⟩

lemma findBlockLoc_first {instanceId : Nat} :
    ∀ {cols : List Column} {loc : BlockLoc}, findBlockLoc instanceId cols = some loc →
    (∀ j, j < loc.colPos → ∀ c, cols.get? j = some c → ∀ b ∈ c.blocks, b.id ≠ instanceId)
      ∧ (∀ j, j < loc.blkPos → ∀ b, loc.column.blocks.get? j = some b → b.id ≠ instanceId) := by
  intro cols
  induction cols with
  | nil => intro loc h; simp [findBlockLoc] at h
  | cons c cs ih =>
      intro loc h
      match hidx : findIdxA (fun b => b.id == instanceId) c.blocks with
      | some bi =>
          obtain ⟨b, hb, _⟩ := findIdxA_some hidx
          simp only [findBlockLoc, hidx, hb, Option.map_some', Option.some.injEq] at h
          subst h
          constructor
          · intro j hj; exact absurd hj (Nat.not_lt_zero j)
          · intro j hj b' hb' heq
            have := findIdxA_first hidx j hj b' hb'
            simp [heq] at this
      | none =>
          simp only [findBlockLoc, hidx] at h
          match hrec : findBlockLoc instanceId cs with
          | none => rw [hrec] at h; simp at h
          | some loc' =>
              rw [hrec] at h
              simp only [Option.map_some', Option.some.injEq] at h
              subst h
              obtain ⟨hcols, hblks⟩ := ih hrec
              constructor
              · intro j hj c' hc' b' hb' heq
                cases j with
                | zero =>
                    simp only [List.get?_cons_zero, Option.some.injEq] at hc'
                    subst hc'
                    have := findIdxA_none hidx b' hb'
                    simp [heq] at this
                | succ j' =>
                    simp only [List.get?_cons_succ] at hc'
                    exact hcols j' (Nat.lt_of_succ_lt_succ hj) c' hc' b' hb' heq
              · exact hblks

lemma findBlockLoc_none {instanceId : Nat} :
    ∀ {cols : List Column}, findBlockLoc instanceId cols = none →
    ∀ c ∈ cols, ∀ b ∈ c.blocks, b.id ≠ instanceId := by
  intro cols
  induction cols with
  | nil => intro _ c hc; simp at hc
  | cons c0 cs ih =>
      intro h c hc b hb heq
      match hidx : findIdxA (fun b => b.id == instanceId) c0.blocks with
      | some bi =>
          obtain ⟨b', hb', _⟩ := findIdxA_some hidx
          simp only [findBlockLoc, hidx, hb', Option.map_some'] at h
          simp at h
      | none =>
          simp only [findBlockLoc, hidx] at h
          match hrec : findBlockLoc instanceId cs with
          | some loc' => rw [hrec] at h; simp at h
          | none =>
              rcases List.mem_cons.mp hc with h1 | h1
              · subst h1
                have := findIdxA_none hidx b hb
                simp [heq] at this
              · exact ih hrec c h1 b hb heq

lemma findBlockLoc_intro {instanceId : Nat} :
    ∀ {cols : List Column} {ci bi : Nat} {c : Column} {b : BlockInstance},
    cols.get? ci = some c → c.blocks.get? bi = some b → b.id = instanceId →
    (∀ j, j < ci → ∀ c', cols.get? j = some c' → ∀ b' ∈ c'.blocks, b'.id ≠ instanceId) →
    (∀ j, j < bi → ∀ b', c.blocks.get? j = some b' → b'.id ≠ instanceId) →
    findBlockLoc instanceId cols = some ⟨ci, bi, c, b⟩ := by
  intro cols
  induction cols with
  | nil => intro ci bi c b h; simp at h
  | cons c0 cs ih =>
      intro ci bi c b hc hb hid hcols hblks
      cases ci with
      | zero =>
          simp only [List.get?_cons_zero, Option.some.injEq] at hc
          subst hc
          have hfind : findIdxA (fun x => x.id == instanceId) c0.blocks = some bi := by
            refine findIdxA_intro hb (by simp [hid]) ?_
            intro j hj y hy
            have := hblks j hj y hy
            simp [this]
          have hb2 : c0.blocks[bi]? = some b := by
            rw [← List.get?_eq_getElem?]; exact hb
          simp [findBlockLoc, hfind, hb2]
      | succ ci' =>
          simp only [List.get?_cons_succ] at hc
          have hnone : findIdxA (fun x => x.id == instanceId) c0.blocks = none := by
            match hidx : findIdxA (fun x => x.id == instanceId) c0.blocks with
            | none => exact hidx
            | some i' =>
                obtain ⟨y, hy, hpy⟩ := findIdxA_some hidx
                have hyne := hcols 0 (Nat.succ_pos ci') c0 (by simp) y (List.get?_mem hy)
                simp only [beq_iff_eq] at hpy
                exact absurd hpy hyne
          have hrec : findBlockLoc instanceId cs = some ⟨ci', bi, c, b⟩ :=
            ih hc hb hid
              (fun j hj c' hc' b' hb' => hcols (j + 1) (Nat.succ_lt_succ hj) c' (by simpa using hc') b' hb')
              hblks
          simp [findBlockLoc, hnone, hrec]

/-- The multiset of a projection `g` over every block of every column, in
scan order. -/
def allProj {β : Type} (g : BlockInstance → β) : List Column → List β
  | [] => []
  | c :: cs => c.blocks.map g ++ allProj g cs

/-- All instance ids present in the workspace. -/
def allIds (cols : List Column) : List Nat :=
  allProj (fun b => b.id) cols

/-- All definition ids referenced by blocks of the workspace. -/
def allDefIds (cols : List Column) : List String :=
  allProj (fun b => b.definitionId) cols

lemma allProj_updBlocks_insert {β : Type} (g : BlockInstance → β)
    (f : List BlockInstance → List BlockInstance) :
    ∀ (cols : List Column) (ci : Nat) (x : β), ci < cols.length →
    (∀ c, cols.get? ci = some c → List.Perm ((f c.blocks).map g) (x :: c.blocks.map g)) →
    List.Perm (allProj g (updBlocks f ci cols)) (x :: allProj g cols) := by
  intro cols
  induction cols with
  | nil => intro ci x h; simp at h
  | cons c cs ih =>
      intro ci x hci hf
      cases ci with
      | zero =>
          have := hf c (by simp)
          simpa [updBlocks, allProj] using this.append_right (allProj g cs)
      | succ ci' =>
          have hrec := ih ci' x (Nat.lt_of_succ_lt_succ hci)
            (fun c' hc' => hf c' (by simpa using hc'))
          have h1 : List.Perm (allProj g (updBlocks f (ci' + 1) (c :: cs)))
              (c.blocks.map g ++ (x :: allProj g cs)) := by
            simpa [updBlocks, allProj] using (hrec.append_left (c.blocks.map g))
          exact h1.trans (List.perm_middle)

lemma allProj_updBlocks_extract {β : Type} (g : BlockInstance → β)
    (f : List BlockInstance → List BlockInstance) :
    ∀ (cols : List Column) (ci : Nat) (x : β), ci < cols.length →
    (∀ c, cols.get? ci = some c → List.Perm (c.blocks.map g) (x :: (f c.blocks).map g)) →
    List.Perm (allProj g cols) (x :: allProj g (updBlocks f ci cols)) := by
  intro cols
  induction cols with
  | nil => intro ci x h; simp at h
  | cons c cs ih =>
      intro ci x hci hf
      cases ci with
      | zero =>
          have := hf c (by simp)
          simpa [updBlocks, allProj] using this.append_right (allProj g cs)
      | succ ci' =>
          have hrec := ih ci' x (Nat.lt_of_succ_lt_succ hci)
            (fun c' hc' => hf c' (by simpa using hc'))
          have h1 : List.Perm (allProj g (c :: cs))
              (c.blocks.map g ++ (x :: allProj g (updBlocks f ci' cs))) := by
            simpa [allProj] using (hrec.append_left (c.blocks.map g))
          exact h1.trans (by simpa [updBlocks, allProj] using
            (@List.perm_middle β x (c.blocks.map g)
              (allProj g (updBlocks f ci' cs))))

lemma allProj_updBlocks_eq {β : Type} (g : BlockInstance → β)
    (f : List BlockInstance → List BlockInstance) :
    ∀ (cols : List Column) (ci : Nat),
    (∀ c, cols.get? ci = some c → (f c.blocks).map g = c.blocks.map g) →
    allProj g (updBlocks f ci cols) = allProj g cols := by
  intro cols
  induction cols with
  | nil => intro ci _; simp [updBlocks]
  | cons c cs ih =>
      intro ci hf
      cases ci with
      | zero => simp [updBlocks, allProj, hf c (by simp)]
      | succ ci' =>
          simp [updBlocks, allProj, ih ci' (fun c' hc' => hf c' (by simpa using hc'))]

lemma mem_allProj_of {β : Type} (g : BlockInstance → β) :
    ∀ {cols : List Column} {ci : Nat} {c : Column} {b : BlockInstance},
    cols.get? ci = some c → b ∈ c.blocks → g b ∈ allProj g cols := by
  intro cols
  induction cols with
  | nil => intro ci c b h; simp at h
  | cons c0 cs ih =>
      intro ci c b hc hb
      cases ci with
      | zero =>
          simp only [List.get?_cons_zero, Option.some.injEq] at hc
          subst hc
          exact List.mem_append.mpr (Or.inl (List.mem_map_of_mem g hb))
      | succ ci' =>
          simp only [List.get?_cons_succ] at hc
          exact List.mem_append.mpr (Or.inr (ih hc hb))

lemma jsRemoveAt_subset {α : Type} : ∀ (n : Nat) (l : List α) (x : α),
    x ∈ jsRemoveAt n l → x ∈ l := by
  intro n l
  induction l generalizing n with
  | nil => intro x h; simp [jsRemoveAt] at h
  | cons a as ih =>
      intro x h
      cases n with
      | zero => exact List.mem_cons_of_mem a h
      | succ m =>
          rcases List.mem_cons.mp h with h1 | h1
          · simp [h1]
          · exact List.mem_cons_of_mem a (ih m x h1)

/-- Well-formedness of the column stored at position `ci`: its `index` field
is `ci`, and every block's `orderIndex` is its array position and
`columnIndex` is `ci`. -/
def ColWF (ci : Nat) (c : Column) : Prop :=
  c.index = ci ∧ ∀ i b, c.blocks.get? i = some b → b.orderIndex = i ∧ b.columnIndex = ci

lemma colWF_insert {ci oi : Nat} {c : Column} {inst : BlockInstance}
    (hwf : ColWF ci c) (ho : oi ≤ c.blocks.length)
    (hoi : inst.orderIndex = oi) (hci : inst.columnIndex = ci) :
    ColWF ci { c with blocks := reindexFrom (oi + 1) (jsInsertAt oi inst c.blocks) } := by
  obtain ⟨hidx, hblk⟩ := hwf
  refine ⟨hidx, ?_⟩
  intro m b hm
  simp only [] at hm
  rw [reindexFrom_get?] at hm
  match hget : (jsInsertAt oi inst c.blocks).get? m with
  | none => rw [hget] at hm; simp at hm
  | some b0 =>
      rw [hget] at hm
      simp only [Option.map_some', Option.some.injEq] at hm
      rcases Nat.lt_trichotomy m oi with hcase | hcase | hcase
      · have hne : ¬ (oi + 1 ≤ m) := by omega
        rw [if_neg hne] at hm
        subst hm
        rw [jsInsertAt_get?_lt inst c.blocks ho hcase] at hget
        exact hblk m _ hget
      · subst hcase
        have hne : ¬ (m + 1 ≤ m) := by omega
        rw [if_neg hne] at hm
        subst hm
        rw [jsInsertAt_get?_self inst c.blocks ho] at hget
        cases hget
        exact ⟨hoi, hci⟩
      · have hle : oi + 1 ≤ m := hcase
        rw [if_pos hle] at hm
        subst hm
        rw [jsInsertAt_get?_gt inst c.blocks ho hcase] at hget
        exact ⟨rfl, (hblk (m - 1) b0 hget).2⟩

lemma colWF_remove {ci bi : Nat} {c : Column} (hwf : ColWF ci c) :
    ColWF ci { c with blocks := reindexFrom bi (jsRemoveAt bi c.blocks) } := by
  obtain ⟨hidx, hblk⟩ := hwf
  refine ⟨hidx, ?_⟩
  intro m b hm
  simp only [] at hm
  rw [reindexFrom_get?] at hm
  match hget : (jsRemoveAt bi c.blocks).get? m with
  | none => rw [hget] at hm; simp at hm
  | some b0 =>
      rw [hget] at hm
      simp only [Option.map_some', Option.some.injEq] at hm
      by_cases hcase : m < bi
      · have hne : ¬ (bi ≤ m) := by omega
        rw [if_neg hne] at hm
        subst hm
        rw [jsRemoveAt_get?_lt c.blocks hcase] at hget
        exact hblk m _ hget
      · have hle : bi ≤ m := Nat.le_of_not_lt hcase
        rw [if_pos hle] at hm
        subst hm
        by_cases hlen : bi < c.blocks.length
        · rw [jsRemoveAt_get?_ge c.blocks hlen hle] at hget
          exact ⟨rfl, (hblk (m + 1) b0 hget).2⟩
        · rw [jsRemoveAt_of_le (Nat.le_of_not_lt hlen)] at hget
          exact ⟨rfl, (hblk m b0 hget).2⟩

lemma colWF_reindex0 {ci : Nat} {c : Column} {bs : List BlockInstance}
    (hidx : c.index = ci) (hall : ∀ b ∈ bs, b.columnIndex = ci) :
    ColWF ci { c with blocks := reindexFrom 0 bs } := by
  refine ⟨hidx, ?_⟩
  intro m b hm
  simp only [] at hm
  rw [reindexFrom_get?] at hm
  match hget : bs.get? m with
  | none => rw [hget] at hm; simp at hm
  | some b0 =>
      rw [hget] at hm
      simp only [Option.map_some', Option.some.injEq, Nat.zero_le, if_pos] at hm
      subst hm
      exact ⟨rfl, hall b0 (List.get?_mem hget)⟩

lemma colWF_set {ci pos : Nat} {c : Column} {x y : BlockInstance}
    (hwf : ColWF ci c) (hold : c.blocks.get? pos = some x)
    (hoi : y.orderIndex = x.orderIndex) (hci : y.columnIndex = x.columnIndex) :
    ColWF ci { c with blocks := c.blocks.set pos y } := by
  obtain ⟨hidx, hblk⟩ := hwf
  refine ⟨hidx, ?_⟩
  intro m b hm
  simp only [] at hm
  by_cases hcase : m = pos
  · subst hcase
    have hlt : m < c.blocks.length := by
      rcases List.get?_eq_some.mp hold with ⟨h, _⟩
      exact h
    rw [setq_self _ _ _ hlt] at hm
    cases hm
    have := hblk m x hold
    exact ⟨hoi.trans this.1, hci.trans this.2⟩
  · rw [setq_ne _ _ _ _ hcase] at hm
    exact hblk m b hm

/-- The length of the block list of column `ci` (0 when out of range). -/
def colLen (wm : WMState) (ci : Nat) : Nat :=
  ((wm.workspace.columns.get? ci).map (fun c => c.blocks.length)).getD 0

/-- The workspace-store invariant: every column is well-formed at its
position, ids present in the workspace are pairwise distinct and below the
counter, every referenced definition resolves, and the ids ever generated
are pairwise distinct and below the counter. -/
def WMInv (reg : Registry) (wm : WMState) : Prop :=
  (∀ ci c, wm.workspace.columns.get? ci = some c → ColWF ci c)
    ∧ (allIds wm.workspace.columns).Nodup
    ∧ (∀ i ∈ allIds wm.workspace.columns, i < wm.nextInstanceId)
    ∧ (∀ s ∈ allDefIds wm.workspace.columns, (regGet reg s).isSome)
    ∧ wm.genIds.Nodup
    ∧ (∀ g ∈ wm.genIds, g < wm.nextInstanceId)

/-- The workspace states reachable from a fresh `WorkspaceManager` by
`addBlock` / `removeBlock` / `moveBlock` / `copyBlock` calls whose column
and order arguments are in range (instance/definition ids are arbitrary —
a not-found call contributes its post-throw state). -/
inductive Reachable (reg : Registry) : WMState → Prop where
  | init (config : WorkspaceConfig) : Reachable reg (initState config)
  | add {wm : WMState} (definitionId : String) (columnIndex orderIndex : Nat)
      (hc : columnIndex < wm.workspace.columns.length)
      (ho : orderIndex ≤ colLen wm columnIndex)
      (h : Reachable reg wm) :
      Reachable reg (addBlock reg definitionId columnIndex orderIndex wm).2
  | remove {wm : WMState} (instanceId : Nat) (h : Reachable reg wm) :
      Reachable reg (removeBlock instanceId wm).2
  | move {wm : WMState} (instanceId toColumn toOrder : Nat)
      (hc : toColumn < wm.workspace.columns.length)
      (ho : toOrder ≤ colLen wm toColumn)
      (h : Reachable reg wm) :
      Reachable reg (moveBlock instanceId toColumn toOrder wm).2
  | copy {wm : WMState} (instanceId : Nat) (h : Reachable reg wm) :
      Reachable reg (copyBlock reg instanceId wm).2

lemma addBlock_err {reg : Registry} {d : String} {ci oi : Nat} {wm : WMState}
    (hreg : regGet reg d = none) :
    addBlock reg d ci oi wm =
      (.error ("No block definition with \"" ++ d ++ "\" found in registry."),
       { wm with nextInstanceId := wm.nextInstanceId + 1
                 genIds := wm.genIds ++ [wm.nextInstanceId] }) := by
  simp [addBlock, hreg]

lemma addBlock_badcol {reg : Registry} {d : String} {ci oi : Nat} {wm : WMState}
    {defn : BlockDefinition} (hreg : regGet reg d = some defn)
    (hlen : ¬ ci < wm.workspace.columns.length) :
    addBlock reg d ci oi wm =
      (.error "TypeError",
       { wm with nextInstanceId := wm.nextInstanceId + 1
                 genIds := wm.genIds ++ [wm.nextInstanceId] }) := by
  simp [addBlock, hreg, hlen]

lemma addBlock_ok {reg : Registry} {d : String} {ci oi : Nat} {wm : WMState}
    {defn : BlockDefinition} (hreg : regGet reg d = some defn)
    (hlen : ci < wm.workspace.columns.length) :
    addBlock reg d ci oi wm =
      (.ok ⟨wm.nextInstanceId, d, ci, oi, defaultParams defn⟩,
       { workspace :=
           { columns := updBlocks
               (fun bs => reindexFrom (oi + 1)
                 (jsInsertAt oi ⟨wm.nextInstanceId, d, ci, oi, defaultParams defn⟩ bs))
               ci wm.workspace.columns
             config := wm.workspace.config }
         nextInstanceId := wm.nextInstanceId + 1
         emits := wm.emits ++ [.add d ci oi]
         genIds := wm.genIds ++ [wm.nextInstanceId] }) := by
  simp [addBlock, hreg, hlen]

lemma removeBlock_err {iid : Nat} {wm : WMState}
    (hfind : findBlockLoc iid wm.workspace.columns = none) :
    removeBlock iid wm =
      (.error ("Block with ID \"" ++ toString iid ++ "\" not found."), wm) := by
  simp [removeBlock, hfind]

lemma removeBlock_ok {iid : Nat} {wm : WMState} {loc : BlockLoc}
    (hfind : findBlockLoc iid wm.workspace.columns = some loc) :
    removeBlock iid wm =
      (.ok (),
       { wm with
           workspace :=
             { columns := updBlocks
                 (fun bs => reindexFrom loc.blkPos (jsRemoveAt loc.blkPos bs))
                 loc.colPos wm.workspace.columns
               config := wm.workspace.config }
           emits := wm.emits ++ [.remove iid] }) := by
  simp [removeBlock, hfind]

lemma moveBlock_err {iid tc tord : Nat} {wm : WMState}
    (hfind : findBlockLoc iid wm.workspace.columns = none) :
    moveBlock iid tc tord wm =
      (.error ("Block with ID \"" ++ toString iid ++ "\" not found."), wm) := by
  simp [moveBlock, hfind]

lemma moveBlock_badcol {iid tc tord : Nat} {wm : WMState} {loc : BlockLoc}
    (hfind : findBlockLoc iid wm.workspace.columns = some loc)
    (hlen : ¬ tc < wm.workspace.columns.length) :
    moveBlock iid tc tord wm =
      (.error "TypeError",
       { wm with workspace :=
           { columns := updBlocks (jsRemoveAt loc.blkPos) loc.colPos wm.workspace.columns
             config := wm.workspace.config } }) := by
  simp [moveBlock, hfind, hlen]

lemma moveBlock_ok_same {iid tc tord : Nat} {wm : WMState} {loc : BlockLoc}
    (hfind : findBlockLoc iid wm.workspace.columns = some loc)
    (hlen : tc < wm.workspace.columns.length)
    (hsame : loc.column.index = tc) :
    moveBlock iid tc tord wm =
      (.ok (),
       { wm with
           workspace :=
             { columns :=
                 updBlocks (reindexFrom 0) loc.colPos
                   (updBlocks
                     (jsInsertAt (if loc.blkPos < tord then tord - 1 else tord)
                       { loc.block with
                           columnIndex := tc
                           orderIndex := if loc.blkPos < tord then tord - 1 else tord })
                     tc (updBlocks (jsRemoveAt loc.blkPos) loc.colPos wm.workspace.columns))
               config := wm.workspace.config }
           emits := wm.emits ++ [.move iid tc tord] }) := by
  simp [moveBlock, hfind, hlen, hsame]

lemma moveBlock_ok_diff {iid tc tord : Nat} {wm : WMState} {loc : BlockLoc}
    (hfind : findBlockLoc iid wm.workspace.columns = some loc)
    (hlen : tc < wm.workspace.columns.length)
    (hdiff : ¬ loc.column.index = tc) :
    moveBlock iid tc tord wm =
      (.ok (),
       { wm with
           workspace :=
             { columns :=
                 updBlocks (reindexFrom 0) tc
                   (updBlocks (reindexFrom 0) loc.colPos
                     (updBlocks
                       (jsInsertAt tord
                         { loc.block with columnIndex := tc, orderIndex := tord })
                       tc (updBlocks (jsRemoveAt loc.blkPos) loc.colPos wm.workspace.columns)))
               config := wm.workspace.config }
           emits := wm.emits ++ [.move iid tc tord] }) := by
  simp [moveBlock, hfind, hlen, hdiff]

lemma updateParameter_err {iid : Nat} {p : String} {v : JVal} {wm : WMState}
    (hfind : findBlockLoc iid wm.workspace.columns = none) :
    updateParameter iid p v wm =
      (.error ("Block with ID \"" ++ toString iid ++ "\" not found."), wm) := by
  simp [updateParameter, hfind]

lemma updateParameter_ok {iid : Nat} {p : String} {v : JVal} {wm : WMState} {loc : BlockLoc}
    (hfind : findBlockLoc iid wm.workspace.columns = some loc) :
    updateParameter iid p v wm =
      (.ok (),
       { wm with
           workspace :=
             { columns := updBlocks
                 (fun bs => bs.set loc.blkPos
                   { loc.block with
                       parameterValues := setK p v loc.block.parameterValues })
                 loc.colPos wm.workspace.columns
               config := wm.workspace.config }
           emits := wm.emits ++ [.param iid p] }) := by
  simp [updateParameter, hfind]

lemma copyBlock_err {reg : Registry} {iid : Nat} {wm : WMState}
    (hfind : findBlockLoc iid wm.workspace.columns = none) :
    copyBlock reg iid wm =
      (.error ("Block with ID \"" ++ toString iid ++ "\" not found."), wm) := by
  simp [copyBlock, hfind]

lemma copyBlock_adderr {reg : Registry} {iid : Nat} {wm wm1 : WMState} {loc : BlockLoc}
    {e : String}
    (hfind : findBlockLoc iid wm.workspace.columns = some loc)
    (hadd : addBlock reg loc.block.definitionId loc.block.columnIndex
      (loc.block.orderIndex + 1) wm = (.error e, wm1)) :
    copyBlock reg iid wm = (.error e, wm1) := by
  simp [copyBlock, hfind, hadd]

lemma copyBlock_ok {reg : Registry} {iid : Nat} {wm wm1 : WMState} {loc : BlockLoc}
    {copy : BlockInstance}
    (hfind : findBlockLoc iid wm.workspace.columns = some loc)
    (hadd : addBlock reg loc.block.definitionId loc.block.columnIndex
      (loc.block.orderIndex + 1) wm = (.ok copy, wm1)) :
    copyBlock reg iid wm =
      (.ok { copy with parameterValues := loc.block.parameterValues },
       { wm1 with
           workspace :=
             { columns := updBlocks
                 (fun bs => bs.set
                   (min (loc.block.orderIndex + 1)
                     (((wm.workspace.columns.get? loc.block.columnIndex).map
                       (fun c => c.blocks.length)).getD 0))
                   { copy with parameterValues := loc.block.parameterValues })
                 copy.columnIndex wm1.workspace.columns
               config := wm1.workspace.config }
           nextInstanceId := wm1.nextInstanceId
           emits := wm1.emits
           genIds := wm1.genIds }) := by
  simp [copyBlock, hfind, hadd]

lemma lt_length_of_getq {α : Type} {l : List α} {n : Nat} {x : α}
    (h : l.get? n = some x) : n < l.length := by
  rcases List.get?_eq_some.mp h with ⟨hlt, _⟩
  exact hlt

lemma getq_some_of_lt {α : Type} {l : List α} {n : Nat} (h : n < l.length) :
    ∃ x, l.get? n = some x := by
  rw [List.get?_eq_get h]
  exact ⟨_, rfl⟩

lemma wmInv_base {reg : Registry} {wm : WMState} (hinv : WMInv reg wm) :
    WMInv reg { wm with nextInstanceId := wm.nextInstanceId + 1
                        genIds := wm.genIds ++ [wm.nextInstanceId] } := by
  obtain ⟨hwf, hnd, hbound, hres, hgnd, hgbound⟩ := hinv
  refine ⟨hwf, hnd, ?_, hres, ?_, ?_⟩
  · intro i hi; exact Nat.lt_succ_of_lt (hbound i hi)
  · rw [List.nodup_append]
    refine ⟨hgnd, List.nodup_singleton _, ?_⟩
    intro g hg1 hg2
    rw [List.mem_singleton] at hg2
    subst hg2
    exact absurd (hgbound _ hg1) (Nat.lt_irrefl _)
  · intro g hg
    rcases List.mem_append.mp hg with h1 | h1
    · exact Nat.lt_succ_of_lt (hgbound g h1)
    · rw [List.mem_singleton] at h1; subst h1; exact Nat.lt_succ_self _

lemma wmInv_addBlock {reg : Registry} {wm : WMState} (d : String) (ci oi : Nat)
    (hinv : WMInv reg wm) (ho : oi ≤ colLen wm ci) :
    WMInv reg (addBlock reg d ci oi wm).2 := by
  match hreg : regGet reg d with
  | none => rw [addBlock_err hreg]; exact wmInv_base hinv
  | some defn =>
      by_cases hlen : ci < wm.workspace.columns.length
      · rw [addBlock_ok hreg hlen]
        obtain ⟨hwf, hnd, hbound, hres, hgnd, hgbound⟩ := hinv
        obtain ⟨c, hc⟩ := getq_some_of_lt hlen
        have hoc : oi ≤ c.blocks.length := by
          have hcl : colLen wm ci = c.blocks.length := by
            simp only [colLen, hc, Option.map_some', Option.getD_some]
          omega
        have hmapid : ∀ c', wm.workspace.columns.get? ci = some c' →
            List.Perm
              ((reindexFrom (oi + 1)
                (jsInsertAt oi ⟨wm.nextInstanceId, d, ci, oi, defaultParams defn⟩ c'.blocks)).map
                (fun b => b.id))
              (wm.nextInstanceId :: c'.blocks.map (fun b => b.id)) := by
          intro c' _
          rw [reindexFrom_map (fun b => b.id) (fun _ _ => rfl)]
          simpa using
            (jsInsertAt_perm oi (⟨wm.nextInstanceId, d, ci, oi, defaultParams defn⟩ : BlockInstance)
              c'.blocks).map (fun b => b.id)
        have hmapdef : ∀ c', wm.workspace.columns.get? ci = some c' →
            List.Perm
              ((reindexFrom (oi + 1)
                (jsInsertAt oi ⟨wm.nextInstanceId, d, ci, oi, defaultParams defn⟩ c'.blocks)).map
                (fun b => b.definitionId))
              (d :: c'.blocks.map (fun b => b.definitionId)) := by
          intro c' _
          rw [reindexFrom_map (fun b => b.definitionId) (fun _ _ => rfl)]
          simpa using
            (jsInsertAt_perm oi (⟨wm.nextInstanceId, d, ci, oi, defaultParams defn⟩ : BlockInstance)
              c'.blocks).map (fun b => b.definitionId)
        have hpid := allProj_updBlocks_insert (fun b => b.id)
          (fun bs => reindexFrom (oi + 1)
            (jsInsertAt oi ⟨wm.nextInstanceId, d, ci, oi, defaultParams defn⟩ bs))
          wm.workspace.columns ci wm.nextInstanceId hlen hmapid
        have hpdef := allProj_updBlocks_insert (fun b => b.definitionId)
          (fun bs => reindexFrom (oi + 1)
            (jsInsertAt oi ⟨wm.nextInstanceId, d, ci, oi, defaultParams defn⟩ bs))
          wm.workspace.columns ci d hlen hmapdef
        refine ⟨?_, ?_, ?_, ?_, ?_, ?_⟩
        · intro cj c' hc'
          by_cases hj : cj = ci
          · subst hj
            rw [updBlocks_get?_self, hc] at hc'
            simp only [Option.map_some', Option.some.injEq] at hc'
            subst hc'
            exact colWF_insert (hwf cj c hc) hoc rfl rfl
          · rw [updBlocks_get?_ne _ _ _ _ hj] at hc'
            exact hwf cj c' hc'
        · refine hpid.symm.nodup (List.nodup_cons.mpr ⟨?_, hnd⟩)
          intro hmem
          exact absurd (hbound _ hmem) (Nat.lt_irrefl _)
        · intro i hi
          rcases List.mem_cons.mp (hpid.mem_iff.mp hi) with h1 | h1
          · subst h1; exact Nat.lt_succ_self _
          · exact Nat.lt_succ_of_lt (hbound i h1)
        · intro s hs
          rcases List.mem_cons.mp (hpdef.mem_iff.mp hs) with h1 | h1
          · subst h1; simp [hreg]
          · exact hres s h1
        · exact (wmInv_base ⟨hwf, hnd, hbound, hres, hgnd, hgbound⟩).2.2.2.2.1
        · exact (wmInv_base ⟨hwf, hnd, hbound, hres, hgnd, hgbound⟩).2.2.2.2.2
      · rw [addBlock_badcol hreg hlen]; exact wmInv_base hinv

lemma wmInv_removeBlock {reg : Registry} {wm : WMState} (iid : Nat)
    (hinv : WMInv reg wm) : WMInv reg (removeBlock iid wm).2 := by
  match hfind : findBlockLoc iid wm.workspace.columns with
  | none => rw [removeBlock_err hfind]; exact hinv
  | some loc =>
      rw [removeBlock_ok hfind]
      obtain ⟨hwf, hnd, hbound, hres, hgnd, hgbound⟩ := hinv
      obtain ⟨hcg, hbg, _⟩ := findBlockLoc_some hfind
      have hlen : loc.colPos < wm.workspace.columns.length := lt_length_of_getq hcg
      have hmapid : ∀ c', wm.workspace.columns.get? loc.colPos = some c' →
          List.Perm (c'.blocks.map (fun b => b.id))
            (loc.block.id ::
              ((reindexFrom loc.blkPos (jsRemoveAt loc.blkPos c'.blocks)).map (fun b => b.id))) := by
        intro c' hc'
        rw [hcg] at hc'
        cases hc'
        rw [reindexFrom_map (fun b => b.id) (fun _ _ => rfl)]
        simpa using (jsRemoveAt_perm hbg).map (fun b => b.id)
      have hmapdef : ∀ c', wm.workspace.columns.get? loc.colPos = some c' →
          List.Perm (c'.blocks.map (fun b => b.definitionId))
            (loc.block.definitionId ::
              ((reindexFrom loc.blkPos (jsRemoveAt loc.blkPos c'.blocks)).map
                (fun b => b.definitionId))) := by
        intro c' hc'
        rw [hcg] at hc'
        cases hc'
        rw [reindexFrom_map (fun b => b.definitionId) (fun _ _ => rfl)]
        simpa using (jsRemoveAt_perm hbg).map (fun b => b.definitionId)
      have hpid := allProj_updBlocks_extract (fun b => b.id)
        (fun bs => reindexFrom loc.blkPos (jsRemoveAt loc.blkPos bs))
        wm.workspace.columns loc.colPos loc.block.id hlen hmapid
      have hpdef := allProj_updBlocks_extract (fun b => b.definitionId)
        (fun bs => reindexFrom loc.blkPos (jsRemoveAt loc.blkPos bs))
        wm.workspace.columns loc.colPos loc.block.definitionId hlen hmapdef
      refine ⟨?_, ?_, ?_, ?_, hgnd, hgbound⟩
      · intro cj c' hc'
        by_cases hj : cj = loc.colPos
        · subst hj
          rw [updBlocks_get?_self, hcg] at hc'
          simp only [Option.map_some', Option.some.injEq] at hc'
          subst hc'
          exact colWF_remove (hwf _ loc.column hcg)
        · rw [updBlocks_get?_ne _ _ _ _ hj] at hc'
          exact hwf cj c' hc'
      · exact ((hpid.nodup hnd).of_cons)
      · intro i hi
        exact hbound i (hpid.symm.mem_iff.mp (List.mem_cons_of_mem _ hi))
      · intro s hs
        exact hres s (hpdef.symm.mem_iff.mp (List.mem_cons_of_mem _ hs))

lemma allProj_moveCore {β : Type} (g : BlockInstance → β)
    (hgO : ∀ (b : BlockInstance) (i : Nat), g { b with orderIndex := i } = g b)
    (cols : List Column) (cp bp tc adj : Nat) (blk1 : BlockInstance)
    (c : Column) (b : BlockInstance)
    (hcg : cols.get? cp = some c) (hbg : c.blocks.get? bp = some b)
    (hgb : g blk1 = g b) (hlen : tc < cols.length) :
    List.Perm
      (allProj g (updBlocks (reindexFrom 0) cp
        (updBlocks (jsInsertAt adj blk1) tc (updBlocks (jsRemoveAt bp) cp cols))))
      (allProj g cols) := by
  have hcp : cp < cols.length := lt_length_of_getq hcg
  have hp1 : List.Perm (allProj g cols)
      (g b :: allProj g (updBlocks (jsRemoveAt bp) cp cols)) := by
    refine allProj_updBlocks_extract g (jsRemoveAt bp) cols cp (g b) hcp ?_
    intro c' hc'
    rw [hcg] at hc'
    cases hc'
    simpa using (jsRemoveAt_perm hbg).map g
  have hl1 : (updBlocks (jsRemoveAt bp) cp cols).length = cols.length :=
    updBlocks_length _ _ _
  have hp2 : List.Perm
      (allProj g (updBlocks (jsInsertAt adj blk1) tc (updBlocks (jsRemoveAt bp) cp cols)))
      (g blk1 :: allProj g (updBlocks (jsRemoveAt bp) cp cols)) := by
    refine allProj_updBlocks_insert g (jsInsertAt adj blk1) _ tc (g blk1)
      (by rw [hl1]; exact hlen) ?_
    intro c' _
    simpa using (jsInsertAt_perm adj blk1 c'.blocks).map g
  have hp3 : allProj g (updBlocks (reindexFrom 0) cp
        (updBlocks (jsInsertAt adj blk1) tc (updBlocks (jsRemoveAt bp) cp cols)))
      = allProj g (updBlocks (jsInsertAt adj blk1) tc (updBlocks (jsRemoveAt bp) cp cols)) :=
    allProj_updBlocks_eq g (reindexFrom 0) _ cp
      (fun c' _ => reindexFrom_map g hgO 0 c'.blocks)
  rw [hp3, hgb] at *
  exact (hp2.trans (hgb ▸ hp1.symm))

lemma wmInv_moveBlock {reg : Registry} {wm : WMState} (iid tc tord : Nat)
    (hinv : WMInv reg wm) (hlen : tc < wm.workspace.columns.length) :
    WMInv reg (moveBlock iid tc tord wm).2 := by
  match hfind : findBlockLoc iid wm.workspace.columns with
  | none => rw [moveBlock_err hfind]; exact hinv
  | some loc =>
      obtain ⟨hwf, hnd, hbound, hres, hgnd, hgbound⟩ := hinv
      obtain ⟨hcg, hbg, _⟩ := findBlockLoc_some hfind
      have hcp : loc.colPos < wm.workspace.columns.length := lt_length_of_getq hcg
      have hcidx : loc.column.index = loc.colPos := (hwf _ _ hcg).1
      by_cases hsame : loc.column.index = tc
      · have hcpt : loc.colPos = tc := hcidx.symm.trans hsame
        rw [moveBlock_ok_same hfind hlen hsame]
        subst hcpt
        have hid := allProj_moveCore (fun x => x.id) (fun _ _ => rfl)
          wm.workspace.columns loc.colPos loc.blkPos loc.colPos
          (if loc.blkPos < tord then tord - 1 else tord)
          { loc.block with
              columnIndex := loc.colPos
              orderIndex := if loc.blkPos < tord then tord - 1 else tord }
          loc.column loc.block hcg hbg rfl hlen
        have hdef := allProj_moveCore (fun x => x.definitionId) (fun _ _ => rfl)
          wm.workspace.columns loc.colPos loc.blkPos loc.colPos
          (if loc.blkPos < tord then tord - 1 else tord)
          { loc.block with
              columnIndex := loc.colPos
              orderIndex := if loc.blkPos < tord then tord - 1 else tord }
          loc.column loc.block hcg hbg rfl hlen
        refine ⟨?_, ?_, ?_, ?_, hgnd, hgbound⟩
        · intro cj c' hc'
          by_cases hj : cj = loc.colPos
          · subst hj
            rw [updBlocks_get?_self, updBlocks_get?_self, updBlocks_get?_self, hcg] at hc'
            simp only [Option.map_some', Option.some.injEq] at hc'
            subst hc'
            refine colWF_reindex0 hcidx ?_
            intro x hx
            rcases List.mem_cons.mp ((jsInsertAt_perm _ _ _).mem_iff.mp hx) with h1 | h1
            · subst h1; rfl
            · obtain ⟨n, hn⟩ := List.get?_of_mem (jsRemoveAt_subset _ _ _ h1)
              exact ((hwf _ _ hcg).2 n x hn).2
          · rw [updBlocks_get?_ne _ _ _ _ hj, updBlocks_get?_ne _ _ _ _ hj,
              updBlocks_get?_ne _ _ _ _ hj] at hc'
            exact hwf _ _ hc'
        · exact hid.symm.nodup hnd
        · intro i hi; exact hbound i (hid.mem_iff.mp hi)
        · intro s hs; exact hres s (hdef.mem_iff.mp hs)
      · have hcpne : loc.colPos ≠ tc := fun h => hsame (hcidx.trans h)
        rw [moveBlock_ok_diff hfind hlen hsame]
        have hcore := fun {β : Type} (g : BlockInstance → β)
            (hgO : ∀ (x : BlockInstance) (i : Nat), g { x with orderIndex := i } = g x)
            (hgb : g { loc.block with columnIndex := tc, orderIndex := tord } = g loc.block) =>
          allProj_moveCore g hgO wm.workspace.columns loc.colPos loc.blkPos tc tord
            { loc.block with columnIndex := tc, orderIndex := tord }
            loc.column loc.block hcg hbg hgb hlen
        have houter : ∀ {β : Type} (g : BlockInstance → β),
            (∀ (x : BlockInstance) (i : Nat), g { x with orderIndex := i } = g x) →
            allProj g (updBlocks (reindexFrom 0) tc
              (updBlocks (reindexFrom 0) loc.colPos
                (updBlocks (jsInsertAt tord
                  { loc.block with columnIndex := tc, orderIndex := tord })
                  tc (updBlocks (jsRemoveAt loc.blkPos) loc.colPos wm.workspace.columns))))
            = allProj g (updBlocks (reindexFrom 0) loc.colPos
                (updBlocks (jsInsertAt tord
                  { loc.block with columnIndex := tc, orderIndex := tord })
                  tc (updBlocks (jsRemoveAt loc.blkPos) loc.colPos wm.workspace.columns))) := by
          intro β g hgO
          exact allProj_updBlocks_eq g (reindexFrom 0) _ tc
            (fun c' _ => reindexFrom_map g hgO 0 c'.blocks)
        have hid := (houter (fun x => x.id) (fun _ _ => rfl)).symm ▸
          hcore (fun x => x.id) (fun _ _ => rfl) rfl
        have hdef := (houter (fun x => x.definitionId) (fun _ _ => rfl)).symm ▸
          hcore (fun x => x.definitionId) (fun _ _ => rfl) rfl
        refine ⟨?_, ?_, ?_, ?_, hgnd, hgbound⟩
        · intro cj c' hc'
          by_cases hjt : cj = tc
          · subst hjt
            rw [updBlocks_get?_self,
              updBlocks_get?_ne _ _ _ _ (Ne.symm hcpne),
              updBlocks_get?_self,
              updBlocks_get?_ne _ _ _ _ (Ne.symm hcpne)] at hc'
            obtain ⟨ct, hct⟩ := getq_some_of_lt hlen
            rw [hct] at hc'
            simp only [Option.map_some', Option.some.injEq] at hc'
            subst hc'
            refine colWF_reindex0 ((hwf _ _ hct).1) ?_
            intro x hx
            rcases List.mem_cons.mp ((jsInsertAt_perm _ _ _).mem_iff.mp hx) with h1 | h1
            · subst h1; rfl
            · obtain ⟨n, hn⟩ := List.get?_of_mem h1
              exact ((hwf _ _ hct).2 n x hn).2
          · by_cases hjc : cj = loc.colPos
            · subst hjc
              rw [updBlocks_get?_ne _ _ _ _ hjt,
                updBlocks_get?_self,
                updBlocks_get?_ne _ _ _ _ hjt,
                updBlocks_get?_self, hcg] at hc'
              simp only [Option.map_some', Option.some.injEq] at hc'
              subst hc'
              refine colWF_reindex0 hcidx ?_
              intro x hx
              obtain ⟨n, hn⟩ := List.get?_of_mem (jsRemoveAt_subset _ _ _ hx)
              exact ((hwf _ _ hcg).2 n x hn).2
            · rw [updBlocks_get?_ne _ _ _ _ hjt, updBlocks_get?_ne _ _ _ _ hjc,
                updBlocks_get?_ne _ _ _ _ hjt, updBlocks_get?_ne _ _ _ _ hjc] at hc'
              exact hwf _ _ hc'
        · exact hid.symm.nodup hnd
        · intro i hi; exact hbound i (hid.mem_iff.mp hi)
        · intro s hs; exact hres s (hdef.mem_iff.mp hs)

lemma wmInv_copyBlock {reg : Registry} {wm : WMState} (iid : Nat)
    (hinv : WMInv reg wm) : WMInv reg (copyBlock reg iid wm).2 := by
  match hfind : findBlockLoc iid wm.workspace.columns with
  | none => rw [copyBlock_err hfind]; exact hinv
  | some loc =>
      obtain ⟨hcg, hbg, _⟩ := findBlockLoc_some hfind
      have hcp := lt_length_of_getq hcg
      have hbp := lt_length_of_getq hbg
      have hfield := (hinv.1 _ _ hcg).2 loc.blkPos loc.block hbg
      have hdres : (regGet reg loc.block.definitionId).isSome :=
        hinv.2.2.2.1 _ (mem_allProj_of (fun b => b.definitionId) hcg (List.get?_mem hbg))
      obtain ⟨defn, hreg⟩ := Option.isSome_iff_exists.mp hdres
      have hcl : loc.block.columnIndex < wm.workspace.columns.length := by
        rw [hfield.2]; exact hcp
      have hadd := @addBlock_ok reg loc.block.definitionId loc.block.columnIndex
        (loc.block.orderIndex + 1) wm defn hreg hcl
      rw [copyBlock_ok hfind hadd]
      have ho : loc.block.orderIndex + 1 ≤ colLen wm loc.block.columnIndex := by
        have hc1 : colLen wm loc.block.columnIndex = loc.column.blocks.length := by
          simp only [colLen, hfield.2, hcg, Option.map_some', Option.getD_some]
        rw [hc1, hfield.1]
        omega
      have hinv1 := wmInv_addBlock loc.block.definitionId loc.block.columnIndex
        (loc.block.orderIndex + 1) hinv ho
      rw [hadd] at hinv1
      obtain ⟨hwf1, hnd1, hbound1, hres1, hgnd1, hgbound1⟩ := hinv1
      have hlenB :
          (((wm.workspace.columns.get? loc.block.columnIndex).map
            (fun c => c.blocks.length)).getD 0) = loc.column.blocks.length := by
        simp only [hfield.2, hcg, Option.map_some', Option.getD_some]
      have hminpos :
          min (loc.block.orderIndex + 1)
            (((wm.workspace.columns.get? loc.block.columnIndex).map
              (fun c => c.blocks.length)).getD 0) = loc.block.orderIndex + 1 := by
        rw [hlenB]
        exact min_eq_left (by rw [hfield.1]; omega)
      -- the column of the post-addBlock state at the copy's column position
      have hup : (updBlocks
          (fun bs => reindexFrom (loc.block.orderIndex + 1 + 1)
            (jsInsertAt (loc.block.orderIndex + 1)
              ⟨wm.nextInstanceId, loc.block.definitionId, loc.block.columnIndex,
                loc.block.orderIndex + 1, defaultParams defn⟩ bs))
          loc.block.columnIndex wm.workspace.columns).get? loc.block.columnIndex =
          some ⟨loc.column.index,
            reindexFrom (loc.block.orderIndex + 1 + 1)
              (jsInsertAt (loc.block.orderIndex + 1)
                ⟨wm.nextInstanceId, loc.block.definitionId, loc.block.columnIndex,
                  loc.block.orderIndex + 1, defaultParams defn⟩ loc.column.blocks)⟩ := by
        rw [updBlocks_get?_self]
        rw [show wm.workspace.columns.get? loc.block.columnIndex = some loc.column by
          rw [hfield.2]; exact hcg]
        rfl
      have hoi1 : loc.block.orderIndex + 1 ≤ loc.column.blocks.length := by
        rw [hfield.1]; omega
      have hgetpos :
          (reindexFrom (loc.block.orderIndex + 1 + 1)
            (jsInsertAt (loc.block.orderIndex + 1)
              ⟨wm.nextInstanceId, loc.block.definitionId, loc.block.columnIndex,
                loc.block.orderIndex + 1, defaultParams defn⟩ loc.column.blocks)).get?
            (loc.block.orderIndex + 1) =
          some ⟨wm.nextInstanceId, loc.block.definitionId, loc.block.columnIndex,
            loc.block.orderIndex + 1, defaultParams defn⟩ := by
        rw [reindexFrom_get?, jsInsertAt_get?_self _ _ hoi1]
        simp

      have hseteq : ∀ {β : Type} (g : BlockInstance → β),
          g { (⟨wm.nextInstanceId, loc.block.definitionId, loc.block.columnIndex,
                loc.block.orderIndex + 1, defaultParams defn⟩ : BlockInstance) with
                parameterValues := loc.block.parameterValues }
            = g ⟨wm.nextInstanceId, loc.block.definitionId, loc.block.columnIndex,
                loc.block.orderIndex + 1, defaultParams defn⟩ →
          allProj g (updBlocks
            (fun bs => bs.set
              (min (loc.block.orderIndex + 1)
                (((wm.workspace.columns.get? loc.block.columnIndex).map
                  (fun c => c.blocks.length)).getD 0))
              { (⟨wm.nextInstanceId, loc.block.definitionId, loc.block.columnIndex,
                  loc.block.orderIndex + 1, defaultParams defn⟩ : BlockInstance) with
                  parameterValues := loc.block.parameterValues })
            loc.block.columnIndex
            (updBlocks
              (fun bs => reindexFrom (loc.block.orderIndex + 1 + 1)
                (jsInsertAt (loc.block.orderIndex + 1)
                  ⟨wm.nextInstanceId, loc.block.definitionId, loc.block.columnIndex,
                    loc.block.orderIndex + 1, defaultParams defn⟩ bs))
              loc.block.columnIndex wm.workspace.columns))
          = allProj g (updBlocks
              (fun bs => reindexFrom (loc.block.orderIndex + 1 + 1)
                (jsInsertAt (loc.block.orderIndex + 1)
                  ⟨wm.nextInstanceId, loc.block.definitionId, loc.block.columnIndex,
                    loc.block.orderIndex + 1, defaultParams defn⟩ bs))
              loc.block.columnIndex wm.workspace.columns) := by
        intro β g hg
        refine allProj_updBlocks_eq g _ _ loc.block.columnIndex ?_
        intro c' hc'
        rw [hup] at hc'
        cases hc'
        rw [hminpos]
        exact set_map_of g _ _ _ _ hgetpos hg
      refine ⟨?_, ?_, ?_, ?_, hgnd1, hgbound1⟩
      · intro cj c' hc'
        rw [hminpos] at hc'
        by_cases hj : cj = loc.block.columnIndex
        · subst hj
          rw [updBlocks_get?_self, hup] at hc'
          simp only [Option.map_some', Option.some.injEq] at hc'
          subst hc'
          exact colWF_set (hwf1 _ _ hup) hgetpos rfl rfl
        · rw [updBlocks_get?_ne _ _ _ _ hj] at hc'
          exact hwf1 _ _ hc'
      · show (allIds _).Nodup
        simp only [allIds]
        rw [hseteq (fun b => b.id) rfl]
        simp only [allIds] at hnd1
        exact hnd1
      · intro i hi
        simp only [allIds] at hi
        rw [hseteq (fun b => b.id) rfl] at hi
        refine hbound1 i ?_
        simp only [allIds]
        exact hi
      · intro s hs
        simp only [allDefIds] at hs
        rw [hseteq (fun b => b.definitionId) rfl] at hs
        refine hres1 s ?_
        simp only [allDefIds]
        exact hs

lemma allProj_eq_nil {β : Type} (g : BlockInstance → β) :
    ∀ cols : List Column, (∀ c ∈ cols, c.blocks = []) → allProj g cols = [] := by
  intro cols
  induction cols with
  | nil => intro _; rfl
  | cons c cs ih =>
      intro h
      simp only [allProj, h c (by simp), List.map_nil, List.nil_append]
      exact ih (fun c' hc' => h c' (List.mem_cons_of_mem c hc'))

lemma wmInv_init (reg : Registry) (config : WorkspaceConfig) :
    WMInv reg (initState config) := by
  have hempty : ∀ c ∈ (initState config).workspace.columns, c.blocks = [] := by
    intro c hc
    simp only [initState] at hc
    rcases List.mem_map.mp hc with ⟨i, _, rfl⟩
    rfl
  refine ⟨?_, ?_, ?_, ?_, ?_, ?_⟩
  · intro ci c hc
    simp only [initState] at hc
    rw [List.get?_map] at hc
    by_cases hci : ci < config.columnCount
    · rw [List.get?_range hci] at hc
      simp only [Option.map_some', Option.some.injEq] at hc
      subst hc
      exact ⟨rfl, by intro i b hb; simp at hb⟩
    · rw [List.get?_eq_none.mpr (by simpa using Nat.le_of_not_lt hci)] at hc
      simp at hc
  · rw [show allIds (initState config).workspace.columns = [] from
      allProj_eq_nil _ _ hempty]
    exact List.nodup_nil
  · intro i hi
    rw [show allIds (initState config).workspace.columns = [] from
      allProj_eq_nil _ _ hempty] at hi
    simp at hi
  · intro s hs
    rw [show allDefIds (initState config).workspace.columns = [] from
      allProj_eq_nil _ _ hempty] at hs
    simp at hs
  · exact List.nodup_nil
  · intro g hg; simp [initState] at hg

lemma wmInv_reachable {reg : Registry} {wm : WMState} (h : Reachable reg wm) :
    WMInv reg wm := by
  induction h with
  | init config => exact wmInv_init reg config
  | add d ci oi hc ho h ih => exact wmInv_addBlock d ci oi ih ho
  | remove iid h ih => exact wmInv_removeBlock iid ih
  | move iid tc tord hc ho h ih => exact wmInv_moveBlock iid tc tord ih hc
  | copy iid h ih => exact wmInv_copyBlock iid ih

/-- Example fixture: the workspace configuration of the spec's literal
scenarios. -/
def cfg0 : WorkspaceConfig := ⟨3, 280, 8, 20⟩

/-- Example fixture: a definition with no parameters. -/
def filterDef : BlockDefinition :=
  ⟨"filter", "Filter", "Transform", "", "#4A90D9", none, none, []⟩

/-- Example fixture: a definition with three parameters. -/
def logDef : BlockDefinition :=
  ⟨"log", "Log", "Output", "", "#333333", none, none,
    [⟨"level", "Level", ParameterType.text, JVal.jstr "info", none, none⟩,
     ⟨"count", "Count", ParameterType.number, JVal.jnum 1, none, none⟩,
     ⟨"enabled", "Enabled", ParameterType.boolean, JVal.jbool true, none, none⟩]⟩

/-- Example fixture: a registry with the two definitions above. -/
def reg0 : Registry := [filterDef, logDef]

/-- C1: after every in-range `addBlock`/`removeBlock`/`moveBlock`/`copyBlock`
call on a fresh `WorkspaceManager`, every column's blocks satisfy
`blocks[i].orderIndex = i`, every block's `columnIndex` is the index of the
column actually containing it (which is that column's array position), all
ids present in the workspace are pairwise distinct, and every id the store
ever generated is distinct from every other. -/
theorem claim1_reachable_invariants (reg : Registry) (wm : WMState)
    (h : Reachable reg wm) :
    (∀ ci c, wm.workspace.columns.get? ci = some c →
        c.index = ci ∧ ∀ i b, c.blocks.get? i = some b →
          b.orderIndex = i ∧ b.columnIndex = ci)
      ∧ (allIds wm.workspace.columns).Nodup
      ∧ wm.genIds.Nodup := by
  have hinv := wmInv_reachable h
  exact ⟨fun ci c hc => hinv.1 ci c hc, hinv.2.1, hinv.2.2.2.2.1⟩

/-- Witness for C1: the invariants hold concretely after
`addBlock "filter" 0 0` then `moveBlock` of instance 1 to column 1 slot 0
from a fresh 3-column manager. -/
theorem claim1_witness :
    (∀ ci c,
        ((moveBlock 1 1 0 (addBlock reg0 "filter" 0 0 (initState cfg0)).2).2).workspace.columns.get?
          ci = some c →
        c.index = ci ∧ ∀ i b, c.blocks.get? i = some b →
          b.orderIndex = i ∧ b.columnIndex = ci)
      ∧ (allIds
          ((moveBlock 1 1 0 (addBlock reg0 "filter" 0 0 (initState cfg0)).2).2).workspace.columns).Nodup
      ∧ ((moveBlock 1 1 0 (addBlock reg0 "filter" 0 0 (initState cfg0)).2).2).genIds.Nodup :=
  claim1_reachable_invariants reg0 _
    (Reachable.move 1 1 0 (by decide) (by decide)
      (Reachable.add "filter" 0 0 (by decide) (by decide) (Reachable.init cfg0)))

/-- C3: a same-column `moveBlock(b.id, c, t)` of the block at index `i` of
column `c` succeeds and leaves the block at final index `t - 1` when `t > i`
(the requested index adjusted down by one because the removal shifted the
tail), and at final index `t` when `t ≤ i`; in both cases its `orderIndex`
equals its final index. -/
theorem claim3_same_column_move (wm : WMState) (iid tord : Nat) {loc : BlockLoc}
    (hfind : findBlockLoc iid wm.workspace.columns = some loc)
    (hidx : loc.column.index = loc.colPos)
    (hto : tord ≤ loc.column.blocks.length) :
    (moveBlock iid loc.colPos tord wm).1 = .ok ()
      ∧ (loc.blkPos < tord →
          ∃ c' b',
            (moveBlock iid loc.colPos tord wm).2.workspace.columns.get? loc.colPos = some c'
              ∧ c'.blocks.get? (tord - 1) = some b'
              ∧ b'.id = iid ∧ b'.orderIndex = tord - 1)
      ∧ (tord ≤ loc.blkPos →
          ∃ c' b',
            (moveBlock iid loc.colPos tord wm).2.workspace.columns.get? loc.colPos = some c'
              ∧ c'.blocks.get? tord = some b'
              ∧ b'.id = iid ∧ b'.orderIndex = tord) := by
  obtain ⟨hcg, hbg, hid⟩ := findBlockLoc_some hfind
  have hlen : loc.colPos < wm.workspace.columns.length := lt_length_of_getq hcg
  have hbp : loc.blkPos < loc.column.blocks.length := lt_length_of_getq hbg
  rw [moveBlock_ok_same hfind hlen hidx]
  refine ⟨rfl, ?_, ?_⟩
  · intro hcase
    simp only [if_pos hcase]
    have h4 : (updBlocks (reindexFrom 0) loc.colPos
        (updBlocks
          (jsInsertAt (tord - 1)
            { loc.block with columnIndex := loc.colPos, orderIndex := tord - 1 })
          loc.colPos
          (updBlocks (jsRemoveAt loc.blkPos) loc.colPos wm.workspace.columns))).get?
          loc.colPos =
        some ⟨loc.column.index,
          reindexFrom 0
            (jsInsertAt (tord - 1)
              { loc.block with columnIndex := loc.colPos, orderIndex := tord - 1 }
              (jsRemoveAt loc.blkPos loc.column.blocks))⟩ := by
      rw [updBlocks_get?_self, updBlocks_get?_self, updBlocks_get?_self, hcg]
      rfl
    refine ⟨_, { loc.block with columnIndex := loc.colPos, orderIndex := tord - 1 },
      h4, ?_, ?_, ?_⟩
    · rw [reindexFrom_get?,
        jsInsertAt_get?_self _ _ (by rw [jsRemoveAt_length hbp]; omega)]
      simp
    · exact hid
    · rfl
  · intro hcase
    have hnlt : ¬ loc.blkPos < tord := by omega
    simp only [if_neg hnlt]
    have h4 : (updBlocks (reindexFrom 0) loc.colPos
        (updBlocks
          (jsInsertAt tord
            { loc.block with columnIndex := loc.colPos, orderIndex := tord })
          loc.colPos
          (updBlocks (jsRemoveAt loc.blkPos) loc.colPos wm.workspace.columns))).get?
          loc.colPos =
        some ⟨loc.column.index,
          reindexFrom 0
            (jsInsertAt tord
              { loc.block with columnIndex := loc.colPos, orderIndex := tord }
              (jsRemoveAt loc.blkPos loc.column.blocks))⟩ := by
      rw [updBlocks_get?_self, updBlocks_get?_self, updBlocks_get?_self, hcg]
      rfl
    refine ⟨_, { loc.block with columnIndex := loc.colPos, orderIndex := tord },
      h4, ?_, ?_, ?_⟩
    · rw [reindexFrom_get?,
        jsInsertAt_get?_self _ _ (by rw [jsRemoveAt_length hbp]; omega)]
      simp
    · exact hid
    · rfl

/-- One block added to a fresh manager, used as a concrete fixture. -/
def wm1ex : WMState := (addBlock reg0 "filter" 0 0 (initState cfg0)).2

/-- Three blocks in column 0 of a fresh manager, used as a concrete fixture. -/
def wm3ex : WMState :=
  (addBlock reg0 "filter" 0 2
    (addBlock reg0 "log" 0 1
      (addBlock reg0 "filter" 0 0 (initState cfg0)).2).2).2

/-- Witness for C3: moving the first of three blocks (instance 1 at index 0)
to requested slot 2 of its own column lands it at index 1 = 2 - 1. -/
theorem claim3_witness :
    (moveBlock 1 0 2 wm3ex).1 = .ok ()
      ∧ (0 < 2 →
          ∃ c' b',
            (moveBlock 1 0 2 wm3ex).2.workspace.columns.get? 0 = some c'
              ∧ c'.blocks.get? (2 - 1) = some b'
              ∧ b'.id = 1 ∧ b'.orderIndex = 2 - 1)
      ∧ (2 ≤ 0 →
          ∃ c' b',
            (moveBlock 1 0 2 wm3ex).2.workspace.columns.get? 0 = some c'
              ∧ c'.blocks.get? 2 = some b'
              ∧ b'.id = 1 ∧ b'.orderIndex = 2) :=
  claim3_same_column_move wm3ex 1 2 rfl rfl (by decide)

/-- C10: every `addBlock` / `removeBlock` / `moveBlock` / `copyBlock` /
`updateParameter` call that throws a not-found error (unknown definition id
or unknown instance id) leaves the workspace model exactly as it was and
emits no `'workspace:changed'` notification. -/
theorem claim10_notfound_atomic (reg : Registry) (wm : WMState) :
    (∀ d ci oi, regGet reg d = none →
        (addBlock reg d ci oi wm).2.workspace = wm.workspace
          ∧ (addBlock reg d ci oi wm).2.emits = wm.emits
          ∧ ∃ e, (addBlock reg d ci oi wm).1 = .error e)
      ∧ (∀ iid, findBlockLoc iid wm.workspace.columns = none →
          removeBlock iid wm =
            (.error ("Block with ID \"" ++ toString iid ++ "\" not found."), wm))
      ∧ (∀ iid tc tord, findBlockLoc iid wm.workspace.columns = none →
          moveBlock iid tc tord wm =
            (.error ("Block with ID \"" ++ toString iid ++ "\" not found."), wm))
      ∧ (∀ iid, findBlockLoc iid wm.workspace.columns = none →
          copyBlock reg iid wm =
            (.error ("Block with ID \"" ++ toString iid ++ "\" not found."), wm))
      ∧ (∀ iid p v, findBlockLoc iid wm.workspace.columns = none →
          updateParameter iid p v wm =
            (.error ("Block with ID \"" ++ toString iid ++ "\" not found."), wm)) := by
  refine ⟨?_, ?_, ?_, ?_, ?_⟩
  · intro d ci oi hreg
    rw [addBlock_err hreg]
    exact ⟨rfl, rfl, _, rfl⟩
  · intro iid hfind; exact removeBlock_err hfind
  · intro iid tc tord hfind; exact moveBlock_err hfind
  · intro iid hfind; exact copyBlock_err hfind
  · intro iid p v hfind; exact updateParameter_err hfind

/-- Witness for C10: concrete not-found calls on a one-block workspace leave
it untouched and emit nothing. -/
theorem claim10_witness :
    ((addBlock reg0 "nope" 0 0 wm1ex).2.workspace = wm1ex.workspace
        ∧ (addBlock reg0 "nope" 0 0 wm1ex).2.emits = wm1ex.emits
        ∧ ∃ e, (addBlock reg0 "nope" 0 0 wm1ex).1 = .error e)
      ∧ removeBlock 99 wm1ex =
          (.error ("Block with ID \"" ++ toString 99 ++ "\" not found."), wm1ex)
      ∧ moveBlock 99 1 0 wm1ex =
          (.error ("Block with ID \"" ++ toString 99 ++ "\" not found."), wm1ex)
      ∧ copyBlock reg0 99 wm1ex =
          (.error ("Block with ID \"" ++ toString 99 ++ "\" not found."), wm1ex)
      ∧ updateParameter 99 "level" (JVal.jstr "warn") wm1ex =
          (.error ("Block with ID \"" ++ toString 99 ++ "\" not found."), wm1ex) :=
  ⟨(claim10_notfound_atomic reg0 wm1ex).1 "nope" 0 0 rfl,
   (claim10_notfound_atomic reg0 wm1ex).2.1 99 rfl,
   (claim10_notfound_atomic reg0 wm1ex).2.2.1 99 1 0 rfl,
   (claim10_notfound_atomic reg0 wm1ex).2.2.2.1 99 rfl,
   (claim10_notfound_atomic reg0 wm1ex).2.2.2.2 99 "level" (JVal.jstr "warn") rfl⟩

/-- C5: `copyBlock` on an existing instance returns a new instance in the
same column directly below the source (array position source + 1, with
`orderIndex = source.orderIndex + 1`), with a fresh id, the same
`definitionId`, and `parameterValues` equal by value to the source's at the
moment of duplication; afterwards `updateParameter` on either instance never
changes the other one (the deep copy shares nothing). -/
theorem claim5_copy_semantics (reg : Registry) (wm : WMState) (iid : Nat)
    {loc : BlockLoc} (hinv : WMInv reg wm)
    (hfind : findBlockLoc iid wm.workspace.columns = some loc) :
    ∃ cpy wm2,
      copyBlock reg iid wm = (.ok cpy, wm2)
        ∧ cpy.id ≠ loc.block.id
        ∧ cpy.definitionId = loc.block.definitionId
        ∧ cpy.orderIndex = loc.block.orderIndex + 1
        ∧ cpy.columnIndex = loc.block.columnIndex
        ∧ cpy.parameterValues = loc.block.parameterValues
        ∧ (∃ c', wm2.workspace.columns.get? loc.colPos = some c'
            ∧ c'.blocks.get? loc.blkPos = some loc.block
            ∧ c'.blocks.get? (loc.blkPos + 1) = some cpy)
        ∧ (∀ p v, ∃ c',
            (updateParameter cpy.id p v wm2).2.workspace.columns.get? loc.colPos = some c'
              ∧ c'.blocks.get? loc.blkPos = some loc.block)
        ∧ (∀ p v, ∃ c',
            (updateParameter loc.block.id p v wm2).2.workspace.columns.get? loc.colPos = some c'
              ∧ c'.blocks.get? (loc.blkPos + 1) = some cpy) := by
  obtain ⟨hcg, hbg, hid⟩ := findBlockLoc_some hfind
  obtain ⟨hffc, hffb⟩ := findBlockLoc_first hfind
  have hcp := lt_length_of_getq hcg
  have hbp := lt_length_of_getq hbg
  have hfield := (hinv.1 _ _ hcg).2 loc.blkPos loc.block hbg
  have hbound := hinv.2.2.1
  have hdres : (regGet reg loc.block.definitionId).isSome :=
    hinv.2.2.2.1 _ (mem_allProj_of (fun b => b.definitionId) hcg (List.get?_mem hbg))
  obtain ⟨defn, hreg⟩ := Option.isSome_iff_exists.mp hdres
  have hcl : loc.block.columnIndex < wm.workspace.columns.length := by
    rw [hfield.2]; exact hcp
  have hadd := @addBlock_ok reg loc.block.definitionId loc.block.columnIndex
    (loc.block.orderIndex + 1) wm defn hreg hcl
  have hcopy := copyBlock_ok hfind hadd
  have hlenB :
      (((wm.workspace.columns.get? loc.block.columnIndex).map
        (fun c => c.blocks.length)).getD 0) = loc.column.blocks.length := by
    simp only [hfield.2, hcg, Option.map_some', Option.getD_some]
  have hoi1 : loc.block.orderIndex + 1 ≤ loc.column.blocks.length := by
    rw [hfield.1]; omega
  have hminpos :
      min (loc.block.orderIndex + 1)
        (((wm.workspace.columns.get? loc.block.columnIndex).map
          (fun c => c.blocks.length)).getD 0) = loc.block.orderIndex + 1 := by
    rw [hlenB]
    exact min_eq_left hoi1
  rw [hminpos] at hcopy
  -- abbreviations: the instance addBlock splices in, its parameter-overwritten
  -- form, the final block list and final column of the source's column
  have hfreshlt : loc.block.id < wm.nextInstanceId :=
    hbound _ (mem_allProj_of (fun b => b.id) hcg (List.get?_mem hbg))
  have hup2 : (updBlocks
      (fun bs => bs.set (loc.block.orderIndex + 1)
        { (⟨wm.nextInstanceId, loc.block.definitionId, loc.block.columnIndex,
            loc.block.orderIndex + 1, defaultParams defn⟩ : BlockInstance) with
            parameterValues := loc.block.parameterValues })
      loc.block.columnIndex
      (updBlocks
        (fun bs => reindexFrom (loc.block.orderIndex + 1 + 1)
          (jsInsertAt (loc.block.orderIndex + 1)
            ⟨wm.nextInstanceId, loc.block.definitionId, loc.block.columnIndex,
              loc.block.orderIndex + 1, defaultParams defn⟩ bs))
        loc.block.columnIndex wm.workspace.columns)).get? loc.block.columnIndex =
      some ⟨loc.column.index,
        (reindexFrom (loc.block.orderIndex + 1 + 1)
          (jsInsertAt (loc.block.orderIndex + 1)
            ⟨wm.nextInstanceId, loc.block.definitionId, loc.block.columnIndex,
              loc.block.orderIndex + 1, defaultParams defn⟩ loc.column.blocks)).set
          (loc.block.orderIndex + 1)
          { (⟨wm.nextInstanceId, loc.block.definitionId, loc.block.columnIndex,
              loc.block.orderIndex + 1, defaultParams defn⟩ : BlockInstance) with
              parameterValues := loc.block.parameterValues }⟩ := by
    rw [updBlocks_get?_self, updBlocks_get?_self,
      show wm.workspace.columns.get? loc.block.columnIndex = some loc.column by
        rw [hfield.2]; exact hcg]
    rfl
  -- any position ≤ the source's position still holds the original block
  have hpre : ∀ j, j ≤ loc.block.orderIndex →
      ((reindexFrom (loc.block.orderIndex + 1 + 1)
        (jsInsertAt (loc.block.orderIndex + 1)
          ⟨wm.nextInstanceId, loc.block.definitionId, loc.block.columnIndex,
            loc.block.orderIndex + 1, defaultParams defn⟩ loc.column.blocks)).set
        (loc.block.orderIndex + 1)
        { (⟨wm.nextInstanceId, loc.block.definitionId, loc.block.columnIndex,
            loc.block.orderIndex + 1, defaultParams defn⟩ : BlockInstance) with
            parameterValues := loc.block.parameterValues }).get? j
        = loc.column.blocks.get? j := by
    intro j hj
    rw [setq_ne _ _ _ _ (by omega : j ≠ loc.block.orderIndex + 1)]
    rw [reindexFrom_get?, jsInsertAt_get?_lt _ _ hoi1 (by omega)]
    match hgj : loc.column.blocks.get? j with
    | none => simp
    | some bj =>
        simp only [Option.map_some']
        rw [if_neg (by omega)]
  have hsrc : ((reindexFrom (loc.block.orderIndex + 1 + 1)
      (jsInsertAt (loc.block.orderIndex + 1)
        ⟨wm.nextInstanceId, loc.block.definitionId, loc.block.columnIndex,
          loc.block.orderIndex + 1, defaultParams defn⟩ loc.column.blocks)).set
      (loc.block.orderIndex + 1)
      { (⟨wm.nextInstanceId, loc.block.definitionId, loc.block.columnIndex,
          loc.block.orderIndex + 1, defaultParams defn⟩ : BlockInstance) with
          parameterValues := loc.block.parameterValues }).get? loc.blkPos
      = some loc.block := by
    rw [hpre loc.blkPos (by omega), hbg]
  have hlset : ((reindexFrom (loc.block.orderIndex + 1 + 1)
      (jsInsertAt (loc.block.orderIndex + 1)
        ⟨wm.nextInstanceId, loc.block.definitionId, loc.block.columnIndex,
          loc.block.orderIndex + 1, defaultParams defn⟩ loc.column.blocks)).length)
      = loc.column.blocks.length + 1 := by
    rw [reindexFrom_length, jsInsertAt_length]
  have hcpyat : ((reindexFrom (loc.block.orderIndex + 1 + 1)
      (jsInsertAt (loc.block.orderIndex + 1)
        ⟨wm.nextInstanceId, loc.block.definitionId, loc.block.columnIndex,
          loc.block.orderIndex + 1, defaultParams defn⟩ loc.column.blocks)).set
      (loc.block.orderIndex + 1)
      { (⟨wm.nextInstanceId, loc.block.definitionId, loc.block.columnIndex,
          loc.block.orderIndex + 1, defaultParams defn⟩ : BlockInstance) with
          parameterValues := loc.block.parameterValues }).get?
      (loc.block.orderIndex + 1)
      = some { (⟨wm.nextInstanceId, loc.block.definitionId, loc.block.columnIndex,
          loc.block.orderIndex + 1, defaultParams defn⟩ : BlockInstance) with
          parameterValues := loc.block.parameterValues } := by
    refine setq_self _ _ _ ?_
    rw [hlset]
    omega
  -- earlier columns of the post-copy state are the original columns
  have hprecol : ∀ j, j < loc.block.columnIndex →
      (updBlocks
        (fun bs => bs.set (loc.block.orderIndex + 1)
          { (⟨wm.nextInstanceId, loc.block.definitionId, loc.block.columnIndex,
              loc.block.orderIndex + 1, defaultParams defn⟩ : BlockInstance) with
              parameterValues := loc.block.parameterValues })
        loc.block.columnIndex
        (updBlocks
          (fun bs => reindexFrom (loc.block.orderIndex + 1 + 1)
            (jsInsertAt (loc.block.orderIndex + 1)
              ⟨wm.nextInstanceId, loc.block.definitionId, loc.block.columnIndex,
                loc.block.orderIndex + 1, defaultParams defn⟩ bs))
          loc.block.columnIndex wm.workspace.columns)).get? j
      = wm.workspace.columns.get? j := by
    intro j hj
    rw [updBlocks_get?_ne _ _ _ _ (by omega), updBlocks_get?_ne _ _ _ _ (by omega)]
  -- the copy can be found at (columnIndex, orderIndex + 1)
  have hfindA : findBlockLoc wm.nextInstanceId
      (updBlocks
        (fun bs => bs.set (loc.block.orderIndex + 1)
          { (⟨wm.nextInstanceId, loc.block.definitionId, loc.block.columnIndex,
              loc.block.orderIndex + 1, defaultParams defn⟩ : BlockInstance) with
              parameterValues := loc.block.parameterValues })
        loc.block.columnIndex
        (updBlocks
          (fun bs => reindexFrom (loc.block.orderIndex + 1 + 1)
            (jsInsertAt (loc.block.orderIndex + 1)
              ⟨wm.nextInstanceId, loc.block.definitionId, loc.block.columnIndex,
                loc.block.orderIndex + 1, defaultParams defn⟩ bs))
          loc.block.columnIndex wm.workspace.columns)) =
      some ⟨loc.block.columnIndex, loc.block.orderIndex + 1,
        ⟨loc.column.index,
          (reindexFrom (loc.block.orderIndex + 1 + 1)
            (jsInsertAt (loc.block.orderIndex + 1)
              ⟨wm.nextInstanceId, loc.block.definitionId, loc.block.columnIndex,
                loc.block.orderIndex + 1, defaultParams defn⟩ loc.column.blocks)).set
            (loc.block.orderIndex + 1)
            { (⟨wm.nextInstanceId, loc.block.definitionId, loc.block.columnIndex,
                loc.block.orderIndex + 1, defaultParams defn⟩ : BlockInstance) with
                parameterValues := loc.block.parameterValues }⟩,
        { (⟨wm.nextInstanceId, loc.block.definitionId, loc.block.columnIndex,
            loc.block.orderIndex + 1, defaultParams defn⟩ : BlockInstance) with
            parameterValues := loc.block.parameterValues }⟩ := by
    refine findBlockLoc_intro hup2 hcpyat rfl ?_ ?_
    · intro j hj c' hc' b hb heq
      rw [hprecol j hj] at hc'
      have := hbound b.id (mem_allProj_of (fun b => b.id) hc' hb)
      omega
    · intro j hj b' hb' heq
      rw [hpre j (by omega)] at hb'
      have := hbound b'.id (mem_allProj_of (fun b => b.id) hcg (List.get?_mem hb'))
      omega
  -- the source can still be found at (columnIndex, blkPos)
  have hfindB : findBlockLoc loc.block.id
      (updBlocks
        (fun bs => bs.set (loc.block.orderIndex + 1)
          { (⟨wm.nextInstanceId, loc.block.definitionId, loc.block.columnIndex,
              loc.block.orderIndex + 1, defaultParams defn⟩ : BlockInstance) with
              parameterValues := loc.block.parameterValues })
        loc.block.columnIndex
        (updBlocks
          (fun bs => reindexFrom (loc.block.orderIndex + 1 + 1)
            (jsInsertAt (loc.block.orderIndex + 1)
              ⟨wm.nextInstanceId, loc.block.definitionId, loc.block.columnIndex,
                loc.block.orderIndex + 1, defaultParams defn⟩ bs))
          loc.block.columnIndex wm.workspace.columns)) =
      some ⟨loc.block.columnIndex, loc.blkPos,
        ⟨loc.column.index,
          (reindexFrom (loc.block.orderIndex + 1 + 1)
            (jsInsertAt (loc.block.orderIndex + 1)
              ⟨wm.nextInstanceId, loc.block.definitionId, loc.block.columnIndex,
                loc.block.orderIndex + 1, defaultParams defn⟩ loc.column.blocks)).set
            (loc.block.orderIndex + 1)
            { (⟨wm.nextInstanceId, loc.block.definitionId, loc.block.columnIndex,
                loc.block.orderIndex + 1, defaultParams defn⟩ : BlockInstance) with
                parameterValues := loc.block.parameterValues }⟩,
        loc.block⟩ := by
    refine findBlockLoc_intro hup2 hsrc rfl ?_ ?_
    · intro j hj c' hc' b hb heq
      rw [hprecol j hj] at hc'
      have hj2 : j < loc.colPos := by rw [← hfield.2]; exact hj
      exact hffc j hj2 c' hc' b hb (by rw [heq, hid])
    · intro j hj b' hb' heq
      rw [hpre j (by rw [hfield.1]; omega)] at hb'
      exact hffb j hj b' hb' (by rw [heq, hid])
  refine ⟨_, _, hcopy,
    (fun h => absurd (h ▸ hfreshlt) (Nat.lt_irrefl _)),
    rfl, rfl, rfl, rfl, ?_, ?_, ?_⟩
  · refine ⟨?w1, ?g1, ?g2, ?g3⟩
    case g1 =>
      rw [show loc.colPos = loc.block.columnIndex from hfield.2.symm]
      exact hup2
    case g2 => exact hsrc
    case g3 =>
      rw [show loc.blkPos + 1 = loc.block.orderIndex + 1 by rw [hfield.1]]
      exact hcpyat
  · intro p v
    rw [updateParameter_ok hfindA]
    refine ⟨?w2, ?g4, ?g5⟩
    case g4 =>
      rw [show loc.colPos = loc.block.columnIndex from hfield.2.symm]
      rw [updBlocks_get?_self, hup2]
      simp only [Option.map_some']
      exact rfl
    case g5 =>
      rw [setq_ne _ _ _ _ (by omega : loc.blkPos ≠ loc.block.orderIndex + 1)]
      exact hsrc
  · intro p v
    rw [updateParameter_ok hfindB]
    refine ⟨?w3, ?g6, ?g7⟩
    case g6 =>
      rw [show loc.colPos = loc.block.columnIndex from hfield.2.symm]
      rw [updBlocks_get?_self, hup2]
      simp only [Option.map_some']
      exact rfl
    case g7 =>
      rw [setq_ne _ _ _ _ (by omega : loc.blkPos + 1 ≠ loc.blkPos)]
      rw [show loc.blkPos + 1 = loc.block.orderIndex + 1 by rw [hfield.1]]
      exact hcpyat

/-- Witness for C5: duplicating the single "filter" block (id 1) of a
one-block workspace. -/
theorem claim5_witness :
    ∃ cpy wm2,
      copyBlock reg0 1 wm1ex = (.ok cpy, wm2)
        ∧ cpy.id ≠ 1
        ∧ cpy.definitionId = "filter"
        ∧ cpy.orderIndex = 0 + 1
        ∧ cpy.columnIndex = 0
        ∧ cpy.parameterValues = ([] : List (String × JVal))
        ∧ (∃ c', wm2.workspace.columns.get? 0 = some c'
            ∧ c'.blocks.get? 0 = some ⟨1, "filter", 0, 0, []⟩
            ∧ c'.blocks.get? (0 + 1) = some cpy)
        ∧ (∀ p v, ∃ c',
            (updateParameter cpy.id p v wm2).2.workspace.columns.get? 0 = some c'
              ∧ c'.blocks.get? 0 = some ⟨1, "filter", 0, 0, []⟩)
        ∧ (∀ p v, ∃ c',
            (updateParameter 1 p v wm2).2.workspace.columns.get? 0 = some c'
              ∧ c'.blocks.get? (0 + 1) = some cpy) :=
  claim5_copy_semantics reg0 wm1ex 1
    (wmInv_reachable
      (Reachable.add "filter" 0 0 (by decide) (by decide) (Reachable.init cfg0)))
    rfl

lemma addBlock_emits_ok {reg : Registry} {d : String} {ci oi : Nat} {wm wm1 : WMState}
    {b : BlockInstance} (h : addBlock reg d ci oi wm = (.ok b, wm1)) :
    wm1.emits = wm.emits ++ [Mut.add d ci oi] := by
  match hreg : regGet reg d with
  | none =>
      rw [addBlock_err hreg] at h
      injection h with h1 h2
      exact Except.noConfusion h1
  | some defn =>
      by_cases hlen : ci < wm.workspace.columns.length
      · rw [addBlock_ok hreg hlen] at h
        injection h with h1 h2
        rw [← h2]
      · rw [addBlock_badcol hreg hlen] at h
        injection h with h1 h2
        exact Except.noConfusion h1

lemma moveBlock_emits_ok {iid tc tord : Nat} {wm wm1 : WMState} {u : Unit}
    (h : moveBlock iid tc tord wm = (.ok u, wm1)) :
    wm1.emits = wm.emits ++ [Mut.move iid tc tord] := by
  match hfind : findBlockLoc iid wm.workspace.columns with
  | none =>
      rw [moveBlock_err hfind] at h
      injection h with h1 h2
      exact Except.noConfusion h1
  | some loc =>
      by_cases hlen : tc < wm.workspace.columns.length
      · by_cases hsame : loc.column.index = tc
        · rw [moveBlock_ok_same hfind hlen hsame] at h
          injection h with h1 h2
          rw [← h2]
        · rw [moveBlock_ok_diff hfind hlen hsame] at h
          injection h with h1 h2
          rw [← h2]
      · rw [moveBlock_badcol hfind hlen] at h
        injection h with h1 h2
        exact Except.noConfusion h1

/-- C4: `updateDrag` never changes the workspace model and is a non-throwing
no-op on the drag state when no drag is active; `cancelDrag` performs no
mutation; `endDrag` with no candidate target is exactly `cancelDrag` (zero
mutations); `endDrag` with a target performs exactly the single
`addBlock(definitionId, target.columnIndex, target.orderIndex)` for a
palette-origin drag, resp. the single
`moveBlock(instanceId, target.columnIndex, target.orderIndex)` for a
canvas-origin drag — on success exactly one change notification is recorded,
tagged with exactly that mutation. -/
theorem claim4_drag_discipline (reg : Registry) (dm : DMState) (wm : WMState) :
    (∀ x y, (updateDrag reg x y dm wm).2 = wm)
      ∧ (dm.currentDrag = none → ∀ x y, updateDrag reg x y dm wm = (.ok dm, wm))
      ∧ ((cancelDrag dm wm).2 = wm ∧ (cancelDrag dm wm).2.emits = wm.emits)
      ∧ (∀ st, dm.currentDrag = some st → st.currentDropTarget = none →
          endDrag reg dm wm = cancelDrag dm wm ∧ (endDrag reg dm wm).2 = wm)
      ∧ (∀ st t, dm.currentDrag = some st → st.currentDropTarget = some t →
          st.source = .palette →
          (endDrag reg dm wm).2 =
              (addBlock reg st.definitionId t.columnIndex t.orderIndex wm).2
            ∧ (∀ b wm1,
                addBlock reg st.definitionId t.columnIndex t.orderIndex wm = (.ok b, wm1) →
                (endDrag reg dm wm).2.emits =
                  wm.emits ++ [Mut.add st.definitionId t.columnIndex t.orderIndex]))
      ∧ (∀ st t iid, dm.currentDrag = some st → st.currentDropTarget = some t →
          st.source = .canvas → st.instanceId = some iid →
          (endDrag reg dm wm).2 = (moveBlock iid t.columnIndex t.orderIndex wm).2
            ∧ (∀ u wm1,
                moveBlock iid t.columnIndex t.orderIndex wm = (.ok u, wm1) →
                (endDrag reg dm wm).2.emits =
                  wm.emits ++ [Mut.move iid t.columnIndex t.orderIndex])) := by
  refine ⟨?_, ?_, ⟨rfl, rfl⟩, ?_, ?_, ?_⟩
  · intro x y
    match hd : dm.currentDrag with
    | none => simp [updateDrag, hd]
    | some st =>
        simp only [updateDrag, hd]
        match getDropTarget reg (match dm.canvasRect with | some r => x - r.1 | none => x)
            (match dm.canvasRect with | some r => y - r.2 | none => y) wm.workspace with
        | none => rfl
        | some target => rfl
  · intro hd x y
    simp [updateDrag, hd]
  · intro st hd htgt
    simp [endDrag, hd, htgt, cancelDrag]
  · intro st t hd htgt hsrc
    constructor
    · simp only [endDrag, hd, htgt, hsrc]
      match hadd : addBlock reg st.definitionId t.columnIndex t.orderIndex wm with
      | (.error e, wm1) => simp [hadd]
      | (.ok b, wm1) => simp [hadd]
    · intro b wm1 hadd
      simp only [endDrag, hd, htgt, hsrc, hadd]
      exact addBlock_emits_ok hadd
  · intro st t iid hd htgt hsrc hiid
    constructor
    · simp only [endDrag, hd, htgt, hsrc, hiid]
      match hmv : moveBlock iid t.columnIndex t.orderIndex wm with
      | (.error e, wm1) => simp [hmv]
      | (.ok u, wm1) => simp [hmv]
    · intro u wm1 hmv
      simp only [endDrag, hd, htgt, hsrc, hiid, hmv]
      exact moveBlock_emits_ok hmv

/-- A palette drag of "filter" with a computed drop target at column 0,
slot 0, used as a concrete fixture. -/
def dmPal : DMState :=
  ⟨some ⟨DragSource.palette, "filter", none, none, none, 100, 200, some ⟨0, 0, 55⟩⟩, none⟩

/-- Witness for C4: an idle `updateDrag` is a non-throwing no-op, and ending
a palette drag over column 0 applies exactly the one `addBlock`, recording
exactly one change notification. -/
theorem claim4_witness :
    updateDrag reg0 7 9 ⟨none, none⟩ (initState cfg0) = (.ok ⟨none, none⟩, initState cfg0)
      ∧ (endDrag reg0 dmPal (initState cfg0)).2
          = (addBlock reg0 "filter" 0 0 (initState cfg0)).2
      ∧ (endDrag reg0 dmPal (initState cfg0)).2.emits
          = (initState cfg0).emits ++ [Mut.add "filter" 0 0] :=
  ⟨(claim4_drag_discipline reg0 ⟨none, none⟩ (initState cfg0)).2.1 rfl 7 9,
   ((claim4_drag_discipline reg0 dmPal (initState cfg0)).2.2.2.2.1 _ _ rfl rfl rfl).1,
   ((claim4_drag_discipline reg0 dmPal (initState cfg0)).2.2.2.2.1 _ _ rfl rfl rfl).2
     ⟨1, "filter", 0, 0, []⟩ wm1ex rfl⟩

lemma getBlockHeight_eq {reg : Registry} {b : BlockInstance}
    (h : (regGet reg b.definitionId).isSome) :
    getBlockHeight reg b = some (heightD reg b) := by
  obtain ⟨d, hd⟩ := Option.isSome_iff_exists.mp h
  simp [getBlockHeight, heightD, hd]

lemma mapM_heights {reg : Registry} :
    ∀ {l : List BlockInstance}, (∀ b ∈ l, (regGet reg b.definitionId).isSome) →
    l.mapM (getBlockHeight reg) = some (l.map (heightD reg)) := by
  intro l
  induction l with
  | nil => intro _; rfl
  | cons b bs ih =>
      intro h
      rw [List.mapM_cons, getBlockHeight_eq (h b (by simp)),
        ih (fun b' hb' => h b' (List.mem_cons_of_mem b hb'))]
      rfl

lemma calculateBlockY_eq {reg : Registry} {oi : Nat} {col : Column}
    {cfg : WorkspaceConfig} (hoi : oi ≤ col.blocks.length)
    (hres : ResolvesCol reg col) :
    calculateBlockY reg oi col cfg = some (blockYD reg oi col cfg) := by
  rw [calculateBlockY, if_pos hoi,
    mapM_heights (fun b hb => hres b (List.take_subset oi col.blocks hb)),
    Option.map_some', List.map_map]
  rfl

lemma blockYD_succ {reg : Registry} {i : Nat} {col : Column} {cfg : WorkspaceConfig}
    {b : BlockInstance} (hb : col.blocks.get? i = some b) :
    blockYD reg (i + 1) col cfg =
      blockYD reg i col cfg + heightD reg b + cfg.blockGapPx := by
  have htake : col.blocks.take (i + 1) = col.blocks.take i ++ [b] := by
    have hlt := lt_length_of_getq hb
    rw [List.take_succ]
    congr 1
    rw [← List.get?_eq_getElem?, hb]
    rfl
  simp only [blockYD, htake, List.map_append, List.sum_append, List.map_cons,
    List.map_nil, List.sum_cons, List.sum_nil]
  ring

lemma dropSlotAux_spec {reg : Registry} {cfg : WorkspaceConfig} {col : Column}
    {mouseY : ℚ} (hres : ResolvesCol reg col) :
    ∀ i, i ≤ col.blocks.length →
    ∃ s yv, dropSlotAux reg cfg col mouseY i = some (s, yv)
      ∧ i ≤ s ∧ s ≤ col.blocks.length
      ∧ (s < col.blocks.length →
          mouseY < midYD reg col cfg s
            ∧ yv = blockYD reg s col cfg - cfg.blockGapPx / 2)
      ∧ (s = col.blocks.length → yv = blockYD reg col.blocks.length col cfg)
      ∧ (∀ j, i ≤ j → j < s → midYD reg col cfg j ≤ mouseY) := by
  intro i hi
  generalize hd : col.blocks.length - i = n
  induction n generalizing i with
  | zero =>
      have : i = col.blocks.length := by omega
      subst this
      rw [dropSlotAux]
      rw [dif_neg (by omega)]
      rw [calculateBlockY_eq (le_refl _) hres]
      refine ⟨col.blocks.length, blockYD reg col.blocks.length col cfg, rfl,
        le_refl _, le_refl _, ?_, fun _ => rfl, ?_⟩
      · intro h; omega
      · intro j h1 h2; omega
  | succ n ih =>
      have hlt : i < col.blocks.length := by omega
      have hbget : col.blocks.get? i = some (col.blocks.get ⟨i, hlt⟩) :=
        List.get?_eq_get hlt
      have hresi : (regGet reg (col.blocks.get ⟨i, hlt⟩).definitionId).isSome :=
        hres _ (List.get?_mem hbget)
      have hmid : midYD reg col cfg i =
          blockYD reg i col cfg + heightD reg (col.blocks.get ⟨i, hlt⟩) / 2 := by
        rw [midYD, hbget]
      rw [dropSlotAux]
      simp only [dif_pos hlt, calculateBlockY_eq (Nat.le_of_lt hlt) hres,
        getBlockHeight_eq hresi]
      by_cases hcmp : mouseY < blockYD reg i col cfg
          + heightD reg (col.blocks.get ⟨i, hlt⟩) / 2
      · rw [if_pos hcmp]
        refine ⟨i, _, rfl, le_refl _, Nat.le_of_lt hlt, ?_, ?_, ?_⟩
        · intro _
          exact ⟨by rw [hmid]; exact hcmp, rfl⟩
        · intro h; omega
        · intro j h1 h2; omega
      · rw [if_neg hcmp]
        obtain ⟨s, yv, heq, hs1, hs2, hs3, hs4, hs5⟩ :=
          ih (i + 1) (by omega) (by omega)
        refine ⟨s, yv, heq, by omega, hs2, hs3, hs4, ?_⟩
        intro j h1 h2
        by_cases hj : j = i
        · subst hj
          rw [hmid]
          exact le_of_not_lt hcmp
        · exact hs5 j (by omega) h2

lemma floor_div_mul_le {c : ℚ} (hc : 0 < c) (x : ℚ) :
    (Int.floor (x / c) : ℚ) * c ≤ x := by
  have h := Int.floor_le (x / c)
  calc (Int.floor (x / c) : ℚ) * c ≤ (x / c) * c :=
        mul_le_mul_of_nonneg_right h (le_of_lt hc)
    _ = x := div_mul_cancel₀ x (ne_of_gt hc)

lemma lt_floor_add_one_mul {c : ℚ} (hc : 0 < c) (x : ℚ) :
    x < ((Int.floor (x / c) : ℚ) + 1) * c := by
  have h := Int.lt_floor_add_one (x / c)
  calc x = (x / c) * c := (div_mul_cancel₀ x (ne_of_gt hc)).symm
    _ < ((Int.floor (x / c) : ℚ) + 1) * c := by
        have : ((Int.floor (x / c) : ℚ) + 1) = ((Int.floor (x / c) + 1 : ℤ) : ℚ) := by
          push_cast; ring
        exact mul_lt_mul_of_pos_right (by exact_mod_cast h) hc

lemma floor_div_eq_of {c : ℚ} (hc : 0 < c) {x : ℚ} {j : ℤ}
    (h1 : (j : ℚ) * c ≤ x) (h2 : x < ((j : ℚ) + 1) * c) :
    Int.floor (x / c) = j := by
  refine Int.floor_eq_iff.mpr ⟨?_, ?_⟩
  · rw [le_div_iff hc]; exact h1
  · rw [div_lt_iff hc]; push_cast; exact h2

lemma getDropTarget_null_left {reg : Registry} {x y : ℚ} {ws : Workspace}
    (h : x - ws.config.canvasPaddingPx < 0) :
    getDropTarget reg x y ws = some none := by
  simp [getDropTarget, h]

lemma getDropTarget_null_zone {reg : Registry} {x y : ℚ} {ws : Workspace}
    (h0 : ¬ x - ws.config.canvasPaddingPx < 0)
    (h : ws.config.columnWidthPx <
          (x - ws.config.canvasPaddingPx)
            - Int.floor ((x - ws.config.canvasPaddingPx) /
                (ws.config.columnWidthPx + COLUMN_GAP_PX))
              * (ws.config.columnWidthPx + COLUMN_GAP_PX)
        ∨ (ws.columns.length : ℤ) ≤
            Int.floor ((x - ws.config.canvasPaddingPx) /
              (ws.config.columnWidthPx + COLUMN_GAP_PX))) :
    getDropTarget reg x y ws = some none := by
  simp only [getDropTarget]
  rw [if_neg h0, if_pos h]

lemma getDropTarget_hit {reg : Registry} {x y : ℚ} {ws : Workspace} {col : Column}
    (h0 : ¬ x - ws.config.canvasPaddingPx < 0)
    (h : ¬ (ws.config.columnWidthPx <
          (x - ws.config.canvasPaddingPx)
            - Int.floor ((x - ws.config.canvasPaddingPx) /
                (ws.config.columnWidthPx + COLUMN_GAP_PX))
              * (ws.config.columnWidthPx + COLUMN_GAP_PX)
        ∨ (ws.columns.length : ℤ) ≤
            Int.floor ((x - ws.config.canvasPaddingPx) /
              (ws.config.columnWidthPx + COLUMN_GAP_PX))))
    (hcol : ws.columns.get?
        (Int.floor ((x - ws.config.canvasPaddingPx) /
          (ws.config.columnWidthPx + COLUMN_GAP_PX))).toNat = some col) :
    getDropTarget reg x y ws =
      (dropSlotAux reg ws.config col y 0).map
        (fun si => some ⟨(Int.floor ((x - ws.config.canvasPaddingPx) /
          (ws.config.columnWidthPx + COLUMN_GAP_PX))).toNat, si.1, si.2⟩) := by
  simp only [getDropTarget]
  rw [if_neg h0, if_neg h, hcol]

lemma zone_split (pad w g x : ℚ) (n : ℕ) (hw : 0 < w) (hg : 0 < g) (hn : 0 < n) :
    (x - pad < 0 ∨ (¬ x - pad < 0 ∧
        (w < (x - pad) - Int.floor ((x - pad) / (w + g)) * (w + g)
          ∨ (n : ℤ) ≤ Int.floor ((x - pad) / (w + g)))))
    ↔ (x < pad
        ∨ (∃ j : ℕ, j + 1 < n
            ∧ pad + j * (w + g) + w < x ∧ x < pad + (j + 1) * (w + g))
        ∨ pad + ((n : ℚ) - 1) * (w + g) + w < x) := by
  have hc : 0 < w + g := by linarith
  constructor
  · rintro (hneg | ⟨h0, hcase⟩)
    · left; linarith
    · have h0' : 0 ≤ x - pad := le_of_not_lt h0
      have hci0 : 0 ≤ Int.floor ((x - pad) / (w + g)) :=
        Int.floor_nonneg.mpr (div_nonneg h0' hc.le)
      have hlow := floor_div_mul_le hc (x - pad)
      have hhigh := lt_floor_add_one_mul hc (x - pad)
      rcases hcase with hpos | hge
      · by_cases hbig : (n : ℤ) ≤ Int.floor ((x - pad) / (w + g))
        · right; right
          have hcast : (n : ℚ) ≤ (Int.floor ((x - pad) / (w + g)) : ℚ) := by
            exact_mod_cast hbig
          have hmul : (n : ℚ) * (w + g)
              ≤ (Int.floor ((x - pad) / (w + g)) : ℚ) * (w + g) :=
            mul_le_mul_of_nonneg_right hcast hc.le
          have hexp : ((n : ℚ) - 1) * (w + g) = (n : ℚ) * (w + g) - (w + g) := by
            ring
          linarith
        · push_neg at hbig
          set ci := Int.floor ((x - pad) / (w + g)) with hcidef
          have hji : ((ci.toNat : ℤ) : ℚ) = (ci : ℚ) := by
            exact_mod_cast Int.toNat_of_nonneg hci0
          have hjn : ci.toNat < n := by omega
          by_cases hj1 : ci.toNat + 1 < n
          · right; left
            refine ⟨ci.toNat, hj1, ?_, ?_⟩
            · have : ((ci.toNat : ℕ) : ℚ) * (w + g) = (ci : ℚ) * (w + g) := by
                push_cast at hji ⊢
                rw [hji]
              linarith [this]
            · have : ((ci.toNat : ℕ) : ℚ) * (w + g) = (ci : ℚ) * (w + g) := by
                push_cast at hji ⊢
                rw [hji]
              have hexp : ((ci.toNat : ℚ) + 1) * (w + g)
                  = (ci.toNat : ℚ) * (w + g) + (w + g) := by ring
              have hexp2 : ((ci : ℚ) + 1) * (w + g)
                  = (ci : ℚ) * (w + g) + (w + g) := by ring
              linarith
          · right; right
            have hjeq : ci.toNat = n - 1 := by omega
            have hcast : ((ci.toNat : ℕ) : ℚ) = (n : ℚ) - 1 := by
              rw [hjeq]
              push_cast [Nat.cast_sub hn]
              ring
            have : ((ci.toNat : ℕ) : ℚ) * (w + g) = (ci : ℚ) * (w + g) := by
              push_cast at hji ⊢
              rw [hji]
            rw [← hcast]
            linarith
      · right; right
        have hcast : (n : ℚ) ≤ (Int.floor ((x - pad) / (w + g)) : ℚ) := by
          exact_mod_cast hge
        have hmul : (n : ℚ) * (w + g)
            ≤ (Int.floor ((x - pad) / (w + g)) : ℚ) * (w + g) :=
          mul_le_mul_of_nonneg_right hcast hc.le
        have hexp : ((n : ℚ) - 1) * (w + g) = (n : ℚ) * (w + g) - (w + g) := by
          ring
        linarith
  · rintro (hneg | ⟨j, hj1, hj2, hj3⟩ | hright)
    · left; linarith
    · right
      have hj0 : (0 : ℚ) ≤ (j : ℚ) * (w + g) :=
        mul_nonneg (Nat.cast_nonneg j) hc.le
      have h0 : ¬ x - pad < 0 := by push_neg; linarith
      have hfl : Int.floor ((x - pad) / (w + g)) = (j : ℤ) := by
        refine floor_div_eq_of hc ?_ ?_
        · push_cast; linarith
        · push_cast
          have hexp : ((j : ℚ) + 1) * (w + g) = (j : ℚ) * (w + g) + (w + g) := by
            ring
          linarith [hexp]
      refine ⟨h0, Or.inl ?_⟩
      rw [hfl]
      push_cast
      linarith
    · right
      have hn1 : (0 : ℚ) ≤ (n : ℚ) - 1 := by
        have : (1 : ℚ) ≤ (n : ℚ) := by exact_mod_cast hn
        linarith
      have hprod : (0 : ℚ) ≤ ((n : ℚ) - 1) * (w + g) := mul_nonneg hn1 hc.le
      have h0 : ¬ x - pad < 0 := by push_neg; linarith
      have hflo : (n : ℤ) - 1 ≤ Int.floor ((x - pad) / (w + g)) := by
        rw [Int.le_floor]
        rw [le_div_iff hc]
        push_cast
        linarith
      refine ⟨h0, ?_⟩
      by_cases hEnd : (n : ℤ) ≤ Int.floor ((x - pad) / (w + g))
      · exact Or.inr hEnd
      · left
        have hfeq : Int.floor ((x - pad) / (w + g)) = (n : ℤ) - 1 := by omega
        rw [hfeq]
        push_cast
        linarith

lemma getDropTarget_hit_spec {reg : Registry} {x y : ℚ} {ws : Workspace}
    (hres : ResolvesWs reg ws)
    (hw : 0 < ws.config.columnWidthPx)
    (h0 : ¬ x - ws.config.canvasPaddingPx < 0)
    (h : ¬ (ws.config.columnWidthPx <
          (x - ws.config.canvasPaddingPx)
            - Int.floor ((x - ws.config.canvasPaddingPx) /
                (ws.config.columnWidthPx + COLUMN_GAP_PX))
              * (ws.config.columnWidthPx + COLUMN_GAP_PX)
        ∨ (ws.columns.length : ℤ) ≤
            Int.floor ((x - ws.config.canvasPaddingPx) /
              (ws.config.columnWidthPx + COLUMN_GAP_PX)))) :
    ∃ col s yv,
      ws.columns.get? (Int.floor ((x - ws.config.canvasPaddingPx) /
          (ws.config.columnWidthPx + COLUMN_GAP_PX))).toNat = some col
      ∧ dropSlotAux reg ws.config col y 0 = some (s, yv)
      ∧ getDropTarget reg x y ws =
          some (some ⟨(Int.floor ((x - ws.config.canvasPaddingPx) /
            (ws.config.columnWidthPx + COLUMN_GAP_PX))).toNat, s, yv⟩)
      ∧ s ≤ col.blocks.length
      ∧ (s < col.blocks.length → y < midYD reg col ws.config s
            ∧ yv = blockYD reg s col ws.config - ws.config.blockGapPx / 2)
      ∧ (s = col.blocks.length → yv = blockYD reg col.blocks.length col ws.config)
      ∧ (∀ j, j < s → midYD reg col ws.config j ≤ y) := by
  push_neg at h
  obtain ⟨hpos, hcil⟩ := h
  have hcw : (0 : ℚ) < ws.config.columnWidthPx + COLUMN_GAP_PX := by
    have h16 : (0 : ℚ) < COLUMN_GAP_PX := by norm_num [COLUMN_GAP_PX]
    linarith
  have hci0 : 0 ≤ Int.floor ((x - ws.config.canvasPaddingPx) /
      (ws.config.columnWidthPx + COLUMN_GAP_PX)) :=
    Int.floor_nonneg.mpr (div_nonneg (le_of_not_lt h0) hcw.le)
  have hlt : (Int.floor ((x - ws.config.canvasPaddingPx) /
      (ws.config.columnWidthPx + COLUMN_GAP_PX))).toNat < ws.columns.length := by
    omega
  have hcol : ws.columns.get? (Int.floor ((x - ws.config.canvasPaddingPx) /
      (ws.config.columnWidthPx + COLUMN_GAP_PX))).toNat =
      some (ws.columns.get ⟨_, hlt⟩) := List.get?_eq_get hlt
  have hrescol : ResolvesCol reg (ws.columns.get ⟨_, hlt⟩) :=
    hres _ (List.get?_mem hcol)
  obtain ⟨s, yv, heq, -, hs2, hs3, hs4, hs5⟩ :=
    dropSlotAux_spec hrescol 0 (Nat.zero_le _)
  refine ⟨ws.columns.get ⟨_, hlt⟩, s, yv, hcol, heq, ?_, hs2, hs3, hs4,
    fun j hj => hs5 j (Nat.zero_le j) hj⟩
  rw [getDropTarget_hit h0 (by push_neg; exact ⟨hpos, hcil⟩) hcol]
  rw [heq]
  rfl

/-- C2: `getDropTarget` returns null exactly when the cursor is strictly left
of the canvas padding, strictly inside a gap band between two columns, or
strictly right of the last column's far edge; otherwise, regardless of the
cursor y, it returns the column whose horizontal span contains the cursor
(the floor of the padding-adjusted x divided by `columnWidthPx +
COLUMN_GAP_PX`), with insertion slot the position of the first block whose
vertical midpoint lies strictly below the cursor — every earlier midpoint
being at or above it, so a cursor exactly at a midpoint inserts after that
block — or the block count when the cursor is below every midpoint; on an
empty column the slot is 0. -/
theorem claim2_drop_target (reg : Registry) (ws : Workspace) (x y : ℚ)
    (hres : ResolvesWs reg ws)
    (hw : 0 < ws.config.columnWidthPx)
    (hn : 0 < ws.columns.length) :
    (getDropTarget reg x y ws = some none ↔
        x < ws.config.canvasPaddingPx
        ∨ (∃ j : ℕ, j + 1 < ws.columns.length
            ∧ calculateColumnX j ws.config + ws.config.columnWidthPx < x
            ∧ x < calculateColumnX (j + 1) ws.config)
        ∨ calculateColumnX (ws.columns.length - 1) ws.config
            + ws.config.columnWidthPx < x)
    ∧ (∀ t, getDropTarget reg x y ws = some (some t) →
        t.columnIndex < ws.columns.length
        ∧ calculateColumnX t.columnIndex ws.config ≤ x
        ∧ x ≤ calculateColumnX t.columnIndex ws.config + ws.config.columnWidthPx
        ∧ (t.columnIndex : ℤ) =
            Int.floor ((x - ws.config.canvasPaddingPx) /
              (ws.config.columnWidthPx + COLUMN_GAP_PX))
        ∧ ∀ c, ws.columns.get? t.columnIndex = some c →
            (t.orderIndex < c.blocks.length ∧ y < midYD reg c ws.config t.orderIndex
                ∨ t.orderIndex = c.blocks.length)
            ∧ (∀ j, j < t.orderIndex → midYD reg c ws.config j ≤ y)
            ∧ (c.blocks = [] → t.orderIndex = 0))
    ∧ (∀ j : ℕ, j < ws.columns.length →
        calculateColumnX j ws.config ≤ x →
        x ≤ calculateColumnX j ws.config + ws.config.columnWidthPx →
        ∃ t, getDropTarget reg x y ws = some (some t) ∧ t.columnIndex = j) := by
  have hg : (0 : ℚ) < COLUMN_GAP_PX := by norm_num [COLUMN_GAP_PX]
  have hcw : (0 : ℚ) < ws.config.columnWidthPx + COLUMN_GAP_PX := by linarith
  have hsucc : ∀ j : ℕ, calculateColumnX (j + 1) ws.config
      = ws.config.canvasPaddingPx
        + ((j : ℚ) + 1) * (ws.config.columnWidthPx + COLUMN_GAP_PX) := by
    intro j
    rw [calculateColumnX]
    push_cast
    ring
  have hlast : calculateColumnX (ws.columns.length - 1) ws.config
      = ws.config.canvasPaddingPx
        + ((ws.columns.length : ℚ) - 1)
          * (ws.config.columnWidthPx + COLUMN_GAP_PX) := by
    rw [calculateColumnX, Nat.cast_sub hn]
    push_cast
    ring
  refine ⟨?_, ?_, ?_⟩
  · have hmain : getDropTarget reg x y ws = some none ↔
        (x - ws.config.canvasPaddingPx < 0
          ∨ (¬ x - ws.config.canvasPaddingPx < 0 ∧
              (ws.config.columnWidthPx <
                  (x - ws.config.canvasPaddingPx)
                    - Int.floor ((x - ws.config.canvasPaddingPx) /
                        (ws.config.columnWidthPx + COLUMN_GAP_PX))
                      * (ws.config.columnWidthPx + COLUMN_GAP_PX)
                ∨ (ws.columns.length : ℤ) ≤
                    Int.floor ((x - ws.config.canvasPaddingPx) /
                      (ws.config.columnWidthPx + COLUMN_GAP_PX))))) := by
      constructor
      · intro hnull
        by_cases h0 : x - ws.config.canvasPaddingPx < 0
        · exact Or.inl h0
        · by_cases hcond : (ws.config.columnWidthPx <
              (x - ws.config.canvasPaddingPx)
                - Int.floor ((x - ws.config.canvasPaddingPx) /
                    (ws.config.columnWidthPx + COLUMN_GAP_PX))
                  * (ws.config.columnWidthPx + COLUMN_GAP_PX)
            ∨ (ws.columns.length : ℤ) ≤
                Int.floor ((x - ws.config.canvasPaddingPx) /
                  (ws.config.columnWidthPx + COLUMN_GAP_PX)))
          · exact Or.inr ⟨h0, hcond⟩
          · obtain ⟨col, s, yv, -, -, heq, -⟩ :=
              getDropTarget_hit_spec hres hw h0 hcond
            rw [hnull] at heq
            exact absurd heq (by simp)
      · rintro (h0 | ⟨h0, hcond⟩)
        · exact getDropTarget_null_left h0
        · exact getDropTarget_null_zone h0 hcond
    rw [hmain, zone_split ws.config.canvasPaddingPx ws.config.columnWidthPx
      COLUMN_GAP_PX x ws.columns.length hw hg hn]
    constructor
    · rintro (h1 | ⟨j, hj, h2, h3⟩ | h4)
      · exact Or.inl h1
      · refine Or.inr (Or.inl ⟨j, hj, ?_, ?_⟩)
        · rw [calculateColumnX]
          exact h2
        · rw [hsucc j]
          exact h3
      · refine Or.inr (Or.inr ?_)
        rw [hlast]
        exact h4
    · rintro (h1 | ⟨j, hj, h2, h3⟩ | h4)
      · exact Or.inl h1
      · refine Or.inr (Or.inl ⟨j, hj, ?_, ?_⟩)
        · rw [calculateColumnX] at h2
          exact h2
        · rw [hsucc j] at h3
          exact h3
      · refine Or.inr (Or.inr ?_)
        rw [hlast] at h4
        exact h4
  · intro t ht
    by_cases h0 : x - ws.config.canvasPaddingPx < 0
    · rw [getDropTarget_null_left h0] at ht
      exact absurd ht (by simp)
    by_cases hcond : (ws.config.columnWidthPx <
        (x - ws.config.canvasPaddingPx)
          - Int.floor ((x - ws.config.canvasPaddingPx) /
              (ws.config.columnWidthPx + COLUMN_GAP_PX))
            * (ws.config.columnWidthPx + COLUMN_GAP_PX)
      ∨ (ws.columns.length : ℤ) ≤
          Int.floor ((x - ws.config.canvasPaddingPx) /
            (ws.config.columnWidthPx + COLUMN_GAP_PX)))
    · rw [getDropTarget_null_zone h0 hcond] at ht
      exact absurd ht (by simp)
    obtain ⟨col, s, yv, hcol, hslot, heq, hs2, hs3, hs4, hs5⟩ :=
      getDropTarget_hit_spec hres hw h0 hcond
    rw [heq] at ht
    have hteq : t = ⟨(Int.floor ((x - ws.config.canvasPaddingPx) /
        (ws.config.columnWidthPx + COLUMN_GAP_PX))).toNat, s, yv⟩ :=
      (Option.some.inj (Option.some.inj ht)).symm
    subst hteq
    have hci0 : 0 ≤ Int.floor ((x - ws.config.canvasPaddingPx) /
        (ws.config.columnWidthPx + COLUMN_GAP_PX)) :=
      Int.floor_nonneg.mpr (div_nonneg (le_of_not_lt h0) hcw.le)
    have h1 : (((Int.floor ((x - ws.config.canvasPaddingPx) /
        (ws.config.columnWidthPx + COLUMN_GAP_PX))).toNat : ℚ))
        = ((Int.floor ((x - ws.config.canvasPaddingPx) /
            (ws.config.columnWidthPx + COLUMN_GAP_PX)) : ℤ) : ℚ) := by
      exact_mod_cast Int.toNat_of_nonneg hci0
    push_neg at hcond
    obtain ⟨hpos, hcil⟩ := hcond
    refine ⟨?_, ?_, ?_, ?_, ?_⟩
    · show (Int.floor ((x - ws.config.canvasPaddingPx) /
        (ws.config.columnWidthPx + COLUMN_GAP_PX))).toNat < ws.columns.length
      omega
    · rw [calculateColumnX]
      rw [h1]
      have := floor_div_mul_le hcw (x - ws.config.canvasPaddingPx)
      linarith
    · rw [calculateColumnX]
      rw [h1]
      linarith
    · exact_mod_cast Int.toNat_of_nonneg hci0
    · intro c hc
      have hceq : c = col := Option.some.inj (hc.symm.trans hcol)
      subst hceq
      refine ⟨?_, fun j hj => hs5 j hj, ?_⟩
      · rcases Nat.lt_or_ge s c.blocks.length with hlt | hge
        · exact Or.inl ⟨hlt, (hs3 hlt).1⟩
        · exact Or.inr (le_antisymm hs2 hge)
      · intro hnil
        have hlen : c.blocks.length = 0 := by rw [hnil]; rfl
        show s = 0
        omega
  · intro j hj hx1 hx2
    rw [calculateColumnX] at hx1 hx2
    have hj0 : (0 : ℚ) ≤ (j : ℚ) * (ws.config.columnWidthPx + COLUMN_GAP_PX) :=
      mul_nonneg (Nat.cast_nonneg j) hcw.le
    have h0 : ¬ x - ws.config.canvasPaddingPx < 0 := by
      push_neg
      linarith
    have hfl : Int.floor ((x - ws.config.canvasPaddingPx) /
        (ws.config.columnWidthPx + COLUMN_GAP_PX)) = (j : ℤ) := by
      refine floor_div_eq_of hcw ?_ ?_
      · push_cast
        linarith
      · push_cast
        have hexp : ((j : ℚ) + 1) * (ws.config.columnWidthPx + COLUMN_GAP_PX)
            = (j : ℚ) * (ws.config.columnWidthPx + COLUMN_GAP_PX)
              + (ws.config.columnWidthPx + COLUMN_GAP_PX) := by ring
        linarith
    have hcond : ¬ (ws.config.columnWidthPx <
        (x - ws.config.canvasPaddingPx)
          - Int.floor ((x - ws.config.canvasPaddingPx) /
              (ws.config.columnWidthPx + COLUMN_GAP_PX))
            * (ws.config.columnWidthPx + COLUMN_GAP_PX)
      ∨ (ws.columns.length : ℤ) ≤
          Int.floor ((x - ws.config.canvasPaddingPx) /
            (ws.config.columnWidthPx + COLUMN_GAP_PX))) := by
      push_neg
      constructor
      · rw [hfl]
        push_cast
        linarith
      · rw [hfl]
        exact_mod_cast hj
    obtain ⟨col, s, yv, hcol, hslot, heq, -⟩ :=
      getDropTarget_hit_spec hres hw h0 hcond
    refine ⟨_, heq, ?_⟩
    show (Int.floor ((x - ws.config.canvasPaddingPx) /
        (ws.config.columnWidthPx + COLUMN_GAP_PX))).toNat = j
    rw [hfl]
    exact Int.toNat_natCast j

/-- Layout fixture: a column holding one parameterless filter block. -/
def col0 : Column := ⟨0, [⟨1, "filter", 0, 0, []⟩]⟩

/-- Layout fixture: the filter block sits in the first of three columns. -/
def ws1col : Workspace := ⟨[col0, ⟨1, []⟩, ⟨2, []⟩], cfg0⟩

lemma ws1col_resolves : ResolvesWs reg0 ws1col := by
  unfold ResolvesWs ResolvesCol
  decide

lemma col0_res : ResolvesCol reg0 col0 := by
  unfold ResolvesCol
  decide

lemma blockYD_col0_0 : blockYD reg0 0 col0 cfg0 = 55 := by
  norm_num [blockYD, col0, cfg0, COLUMN_HEADER_HEIGHT_PX]

lemma regGet_filter : regGet reg0 "filter" = some filterDef := rfl

lemma heightD_filter :
    heightD reg0 (⟨1, "filter", 0, 0, []⟩ : BlockInstance) = 44 := by
  have h1 : heightD reg0 (⟨1, "filter", 0, 0, []⟩ : BlockInstance)
      = HEADER_HEIGHT_PX + (filterDef.parameters.length : ℚ) * PARAM_ROW_HEIGHT_PX
        + BLOCK_PADDING_PX := by
    rw [heightD, regGet_filter]
  rw [h1]
  norm_num [filterDef, HEADER_HEIGHT_PX, PARAM_ROW_HEIGHT_PX, BLOCK_PADDING_PX]

lemma blockYD_col0_1 : blockYD reg0 1 col0 cfg0 = 107 := by
  have h0 : col0.blocks.get? 0
      = some (⟨1, "filter", 0, 0, []⟩ : BlockInstance) := rfl
  rw [show (1 : ℕ) = 0 + 1 from rfl, blockYD_succ h0, blockYD_col0_0,
    heightD_filter]
  norm_num [cfg0]

lemma ws1col_floor : Int.floor ((100 - ws1col.config.canvasPaddingPx) /
    (ws1col.config.columnWidthPx + COLUMN_GAP_PX)) = 0 := by
  have hq : (100 - ws1col.config.canvasPaddingPx) /
      (ws1col.config.columnWidthPx + COLUMN_GAP_PX) = 10 / 37 := by
    norm_num [ws1col, cfg0, COLUMN_GAP_PX]
  rw [hq, Int.floor_eq_iff]
  norm_num

lemma ws1col_dropTarget :
    getDropTarget reg0 100 1000 ws1col = some (some ⟨0, 1, 107⟩) := by
  have hY0 : calculateBlockY reg0 0 col0 cfg0
      = some (blockYD reg0 0 col0 cfg0) :=
    calculateBlockY_eq (Nat.zero_le _) col0_res
  have hY1 : calculateBlockY reg0 col0.blocks.length col0 cfg0
      = some (blockYD reg0 col0.blocks.length col0 cfg0) :=
    calculateBlockY_eq (le_refl _) col0_res
  have hH0 : getBlockHeight reg0 (⟨1, "filter", 0, 0, []⟩ : BlockInstance)
      = some 44 := by
    rw [getBlockHeight_eq (by decide), heightD_filter]
  have hcol : ws1col.columns.get? (Int.floor ((100 - ws1col.config.canvasPaddingPx) /
      (ws1col.config.columnWidthPx + COLUMN_GAP_PX))).toNat = some col0 := by
    rw [ws1col_floor]
    rfl
  have e1 : dropSlotAux reg0 cfg0 col0 1000 1 = some (1, 107) := by
    rw [dropSlotAux]
    rw [dif_neg (by decide : ¬ 1 < col0.blocks.length)]
    rw [show (1 : ℕ) = col0.blocks.length from rfl, hY1]
    rw [show col0.blocks.length = 1 from rfl, blockYD_col0_1]
    rfl
  have h01 : 0 < col0.blocks.length := by decide
  have e0 : dropSlotAux reg0 cfg0 col0 1000 0 = some (1, 107) := by
    rw [dropSlotAux]
    simp only [dif_pos h01, hY0,
      show col0.blocks.get ⟨0, h01⟩ = (⟨1, "filter", 0, 0, []⟩ : BlockInstance)
        from rfl, hH0]
    rw [blockYD_col0_0]
    rw [if_neg (by norm_num)]
    exact e1
  rw [getDropTarget_hit (by norm_num [ws1col, cfg0]) ?hgap hcol]
  case hgap =>
    push_neg
    refine ⟨?_, ?_⟩
    · rw [ws1col_floor]
      norm_num [ws1col, cfg0]
    · rw [ws1col_floor]
      norm_num [ws1col]
  rw [show ws1col.config = cfg0 from rfl, e0]
  simp only [Option.map_some']
  have hfl2 : Int.floor (((100 : ℚ) - cfg0.canvasPaddingPx) /
      (cfg0.columnWidthPx + COLUMN_GAP_PX)) = 0 := ws1col_floor
  rw [hfl2]
  rfl

/-- Witness for C2 at a concrete input: with the cursor at x = 100 inside the
span of column 0 of the three-column fixture, `getDropTarget` returns a
non-null target in column 0. -/
theorem claim2_witness :
    ResolvesWs reg0 ws1col
      ∧ (0 : ℚ) < ws1col.config.columnWidthPx
      ∧ 0 < ws1col.columns.length
      ∧ ∃ t, getDropTarget reg0 100 10 ws1col = some (some t)
          ∧ t.columnIndex = 0 :=
  ⟨ws1col_resolves, by norm_num [ws1col, cfg0], by decide,
    (claim2_drop_target reg0 ws1col 100 10 ws1col_resolves
        (by norm_num [ws1col, cfg0]) (by decide)).2.2 0 (by decide)
      (by norm_num [calculateColumnX, ws1col, cfg0])
      (by norm_num [calculateColumnX, ws1col, cfg0])⟩

/-- C6 counterexample: with one 44px-tall block in column 0 and the cursor
below it, the append-at-end drop target has indicator y 107, the bare
end-of-column offset, not 107 minus half the 8px gap as the claim states. -/
theorem claim6_counterexample :
    getDropTarget reg0 100 1000 ws1col = some (some ⟨0, 1, 107⟩)
      ∧ ws1col.columns.get? 0 = some col0
      ∧ blockYD reg0 col0.blocks.length col0 cfg0 = 107
      ∧ ((107 : ℚ) ≠ blockYD reg0 col0.blocks.length col0 cfg0
          - cfg0.blockGapPx / 2) :=
  ⟨ws1col_dropTarget, rfl,
    by rw [show col0.blocks.length = 1 from rfl]; exact blockYD_col0_1,
    by
      rw [show col0.blocks.length = 1 from rfl, blockYD_col0_1]
      norm_num [cfg0]⟩

/-- C6 (amended): for every non-null result of `getDropTarget`, when the
insertion slot is strictly inside the column the indicator y is the slot's
block offset minus half `blockGapPx` — for an interior slot this is exactly
the midpoint of the gap between the two flanking blocks — but at the
append-at-end slot the indicator is the bare end-of-column offset, with no
half-gap subtraction. -/
theorem claim6_amended_indicator (reg : Registry) (ws : Workspace) (x y : ℚ)
    (hres : ResolvesWs reg ws)
    (hw : 0 < ws.config.columnWidthPx) :
    ∀ t c, getDropTarget reg x y ws = some (some t) →
      ws.columns.get? t.columnIndex = some c →
      (t.orderIndex < c.blocks.length →
          t.indicatorY = blockYD reg t.orderIndex c ws.config
            - ws.config.blockGapPx / 2)
      ∧ (∀ pb i, t.orderIndex = i + 1 → i + 1 < c.blocks.length →
          c.blocks.get? i = some pb →
          t.indicatorY = ((blockYD reg i c ws.config + heightD reg pb)
            + blockYD reg (i + 1) c ws.config) / 2)
      ∧ (t.orderIndex = c.blocks.length →
          t.indicatorY = blockYD reg c.blocks.length c ws.config) := by
  intro t c ht hc
  by_cases h0 : x - ws.config.canvasPaddingPx < 0
  · rw [getDropTarget_null_left h0] at ht
    exact absurd ht (by simp)
  by_cases hcond : (ws.config.columnWidthPx <
      (x - ws.config.canvasPaddingPx)
        - Int.floor ((x - ws.config.canvasPaddingPx) /
            (ws.config.columnWidthPx + COLUMN_GAP_PX))
          * (ws.config.columnWidthPx + COLUMN_GAP_PX)
    ∨ (ws.columns.length : ℤ) ≤
        Int.floor ((x - ws.config.canvasPaddingPx) /
          (ws.config.columnWidthPx + COLUMN_GAP_PX)))
  · rw [getDropTarget_null_zone h0 hcond] at ht
    exact absurd ht (by simp)
  obtain ⟨col, s, yv, hcol, hslot, heq, hs2, hs3, hs4, hs5⟩ :=
    getDropTarget_hit_spec hres hw h0 hcond
  rw [heq] at ht
  have hteq : t = ⟨(Int.floor ((x - ws.config.canvasPaddingPx) /
      (ws.config.columnWidthPx + COLUMN_GAP_PX))).toNat, s, yv⟩ :=
    (Option.some.inj (Option.some.inj ht)).symm
  subst hteq
  have hceq : c = col := Option.some.inj (hc.symm.trans hcol)
  subst hceq
  refine ⟨fun hlt => (hs3 hlt).2, ?_, fun heqs => hs4 heqs⟩
  intro pb i hoi hi hpb
  have hs_eq : s = i + 1 := hoi
  have hstep := @blockYD_succ reg i c ws.config pb hpb
  have hind : yv = blockYD reg (i + 1) c ws.config
      - ws.config.blockGapPx / 2 := by
    have h' := (hs3 (by omega : s < c.blocks.length)).2
    rw [hs_eq] at h'
    exact h'
  show yv = ((blockYD reg i c ws.config + heightD reg pb)
      + blockYD reg (i + 1) c ws.config) / 2
  rw [hind, hstep]
  ring

/-- Witness for C6 (amended) at a concrete input: the append-at-end drop
target below the single block of column 0 has indicator y exactly the
end-of-column offset 107. -/
theorem claim6_witness :
    ResolvesWs reg0 ws1col
      ∧ (0 : ℚ) < ws1col.config.columnWidthPx
      ∧ getDropTarget reg0 100 1000 ws1col = some (some ⟨0, 1, 107⟩)
      ∧ (107 : ℚ) = blockYD reg0 col0.blocks.length col0 ws1col.config :=
  ⟨ws1col_resolves, by norm_num [ws1col, cfg0], ws1col_dropTarget,
    (claim6_amended_indicator reg0 ws1col 100 1000 ws1col_resolves
        (by norm_num [ws1col, cfg0]) ⟨0, 1, 107⟩ col0
        ws1col_dropTarget rfl).2.2 rfl⟩

/-- C7: `calculateColumnX i config = canvasPaddingPx + i * (columnWidthPx +
16)`; a resolvable block whose definition has `n` parameters has height
`36 + n * 32 + 8`; and `calculateBlockY` is `35 + canvasPaddingPx` plus the
sum of `height + blockGapPx` over the blocks before the slot.  For the
config `{columnCount: 3, columnWidthPx: 280, blockGapPx: 8,
canvasPaddingPx: 20}`: the column x-offsets are 20, 316, 612; a
0-parameter block is 44 tall and a 3-parameter block 140; a first block
sits at y = 55. -/
theorem claim7_layout_formulas :
    (∀ (i : Nat) (config : WorkspaceConfig),
        calculateColumnX i config
          = config.canvasPaddingPx + i * (config.columnWidthPx + 16))
    ∧ (∀ (reg : Registry) (b : BlockInstance) (d : BlockDefinition),
        regGet reg b.definitionId = some d →
        getBlockHeight reg b
          = some (36 + d.parameters.length * 32 + 8))
    ∧ (∀ (reg : Registry) (oi : Nat) (col : Column) (config : WorkspaceConfig),
        oi ≤ col.blocks.length → ResolvesCol reg col →
        calculateBlockY reg oi col config
          = some (35 + config.canvasPaddingPx
              + ((col.blocks.take oi).map
                  (fun b => heightD reg b + config.blockGapPx)).sum))
    ∧ calculateColumnX 0 cfg0 = 20
    ∧ calculateColumnX 1 cfg0 = 316
    ∧ calculateColumnX 2 cfg0 = 612
    ∧ getBlockHeight reg0 (⟨1, "filter", 0, 0, []⟩ : BlockInstance) = some 44
    ∧ getBlockHeight reg0 (⟨2, "log", 0, 0, []⟩ : BlockInstance) = some 140
    ∧ calculateBlockY reg0 0 col0 cfg0 = some 55 := by
  refine ⟨?_, ?_, ?_, ?_, ?_, ?_, ?_, ?_, ?_⟩
  · intro i config
    rw [calculateColumnX]
    norm_num [COLUMN_GAP_PX]
  · intro reg b d hd
    rw [getBlockHeight, hd]
    simp only [Option.map_some']
    norm_num [HEADER_HEIGHT_PX, PARAM_ROW_HEIGHT_PX, BLOCK_PADDING_PX]
  · intro reg oi col config hoi hres
    rw [calculateBlockY_eq hoi hres]
    simp only [blockYD, COLUMN_HEADER_HEIGHT_PX]
  · norm_num [calculateColumnX, cfg0, COLUMN_GAP_PX]
  · norm_num [calculateColumnX, cfg0, COLUMN_GAP_PX]
  · norm_num [calculateColumnX, cfg0, COLUMN_GAP_PX]
  · rw [getBlockHeight_eq (by decide), heightD_filter]
  · have h1 : getBlockHeight reg0 (⟨2, "log", 0, 0, []⟩ : BlockInstance)
        = some (HEADER_HEIGHT_PX + (logDef.parameters.length : ℚ)
            * PARAM_ROW_HEIGHT_PX + BLOCK_PADDING_PX) := by
      rw [getBlockHeight,
        show regGet reg0 (⟨2, "log", 0, 0, []⟩ : BlockInstance).definitionId
          = some logDef from rfl]
      rfl
    rw [h1]
    norm_num [logDef, HEADER_HEIGHT_PX, PARAM_ROW_HEIGHT_PX, BLOCK_PADDING_PX]
  · rw [calculateBlockY_eq (Nat.zero_le _) col0_res, blockYD_col0_0]

/-- Witness for C7: the block-y formula instantiated at slot 0 of the
single-block column fixture. -/
theorem claim7_witness :
    (0 ≤ col0.blocks.length ∧ ResolvesCol reg0 col0)
      ∧ calculateBlockY reg0 0 col0 cfg0
          = some (35 + cfg0.canvasPaddingPx
              + ((col0.blocks.take 0).map
                  (fun b => heightD reg0 b + cfg0.blockGapPx)).sum) :=
  ⟨⟨Nat.zero_le _, col0_res⟩,
    claim7_layout_formulas.2.2.1 reg0 0 col0 cfg0 (Nat.zero_le _) col0_res⟩

/-- The raw block list `deserialize` builds from a serialized column: raw
string properties plus position-derived indices. -/
def rbListOf (ci : Nat) : Nat → List SBlockInstance → List RBlock
  | _, [] => []
  | oi, b :: rest =>
      ⟨some (.jstr b.id), some (.jstr b.definitionId), ci, oi,
        some (.jobj b.parameterValues)⟩ :: rbListOf ci (oi + 1) rest

/-- The raw column list `deserialize` builds from a serialized workspace. -/
def rcListOf : Nat → List SColumn → List RColumn
  | _, [] => []
  | ci, c :: rest => ⟨ci, rbListOf ci 0 c.blocks⟩ :: rcListOf (ci + 1) rest

/-- The workspace data-model invariant on the serializer side: every index
field agrees with the array position holding it. -/
def PosWF (w : SWorkspace) : Prop :=
  ∀ ci c, w.columns.get? ci = some c →
    c.index = ci ∧ ∀ oi b, c.blocks.get? oi = some b →
      b.columnIndex = ci ∧ b.orderIndex = oi

/-- Every block of the serializer-side workspace resolves in the registry. -/
def SResolves (reg : Registry) (w : SWorkspace) : Prop :=
  ∀ c ∈ w.columns, ∀ b ∈ c.blocks, (regGet reg b.definitionId).isSome

lemma except_bind_ok {ε α β : Type} (a : α) (f : α → Except ε β) :
    (Except.ok a >>= f) = f a := rfl

lemma except_bind_err {ε α β : Type} (e : ε) (f : α → Except ε β) :
    (Except.error e >>= f : Except ε β) = Except.error e := rfl

lemma lookupK_ser_id (b : SBlockInstance) :
    lookupK "id"
      [ ("id", JVal.jstr b.id)
      , ("definitionId", JVal.jstr b.definitionId)
      , ("parameterValues", JVal.jobj b.parameterValues) ]
      = some (JVal.jstr b.id) := by
  simp [lookupK]

lemma lookupK_ser_defid (b : SBlockInstance) :
    lookupK "definitionId"
      [ ("id", JVal.jstr b.id)
      , ("definitionId", JVal.jstr b.definitionId)
      , ("parameterValues", JVal.jobj b.parameterValues) ]
      = some (JVal.jstr b.definitionId) := by
  simp [lookupK]

lemma lookupK_ser_pv (b : SBlockInstance) :
    lookupK "parameterValues"
      [ ("id", JVal.jstr b.id)
      , ("definitionId", JVal.jstr b.definitionId)
      , ("parameterValues", JVal.jobj b.parameterValues) ]
      = some (JVal.jobj b.parameterValues) := by
  simp [lookupK]

lemma deserializeBlocks_ser (reg : Registry) (ci : Nat) :
    ∀ (oi : Nat) (bs : List SBlockInstance),
    (∀ b ∈ bs, (regGet reg b.definitionId).isSome) →
    deserializeBlocks reg ci oi (bs.map (fun block =>
        JVal.jobj
          [ ("id", JVal.jstr block.id)
          , ("definitionId", JVal.jstr block.definitionId)
          , ("parameterValues", JVal.jobj block.parameterValues) ]))
      = .ok (rbListOf ci oi bs) := by
  intro oi bs
  induction bs generalizing oi with
  | nil => intro _; rfl
  | cons b rest ih =>
      intro h
      obtain ⟨d, hd⟩ := Option.isSome_iff_exists.mp (h b (by simp))
      have ihr := ih (oi + 1) (fun b' hb' => h b' (List.mem_cons_of_mem b hb'))
      simp only [List.map_cons, deserializeBlocks, jsProp, lookupK_ser_defid,
        lookupK_ser_id, lookupK_ser_pv, except_bind_ok, hd, ihr, rbListOf]
      rfl

lemma deserializeCols_ser (reg : Registry) :
    ∀ (ci0 : Nat) (cols : List SColumn),
    (∀ c ∈ cols, ∀ b ∈ c.blocks, (regGet reg b.definitionId).isSome) →
    deserializeCols reg ci0 (cols.map (fun column =>
        JVal.jarr (column.blocks.map (fun block =>
          JVal.jobj
            [ ("id", JVal.jstr block.id)
            , ("definitionId", JVal.jstr block.definitionId)
            , ("parameterValues", JVal.jobj block.parameterValues) ]))))
      = .ok (rcListOf ci0 cols) := by
  intro ci0 cols
  induction cols generalizing ci0 with
  | nil => intro _; rfl
  | cons c rest ih =>
      intro h
      have hb := deserializeBlocks_ser reg ci0 0 c.blocks (h c (by simp))
      have ihr := ih (ci0 + 1) (fun c' hc' => h c' (List.mem_cons_of_mem c hc'))
      simp only [List.map_cons, deserializeCols, hb, ihr, except_bind_ok,
        rcListOf]
      rfl

lemma deserializeV_ser (reg : Registry) (w : SWorkspace)
    (hres : SResolves reg w) :
    deserializeV (serializeV w) reg
      = .ok ⟨rcListOf 0 w.columns,
          ⟨some (.jnum w.config.columnCount),
           some (.jnum w.config.columnWidthPx),
           some (.jnum w.config.blockGapPx),
           some (.jnum w.config.canvasPaddingPx)⟩⟩ := by
  have hcols := deserializeCols_ser reg 0 w.columns hres
  simp [serializeV, deserializeV, jsProp, jsPropU, lookupK, except_bind_ok,
    hcols]

lemma rbListOf_toS (ci : Nat) :
    ∀ (oi : Nat) (bs : List SBlockInstance),
    (∀ j b, bs.get? j = some b → b.columnIndex = ci ∧ b.orderIndex = oi + j) →
    (rbListOf ci oi bs).map toSBlock = bs := by
  intro oi bs
  induction bs generalizing oi with
  | nil => intro _; rfl
  | cons b rest ih =>
      intro h
      obtain ⟨hc, ho⟩ := h 0 b rfl
      have ihr := ih (oi + 1) (fun j b' hb' => by
        obtain ⟨hc', ho'⟩ := h (j + 1) b' hb'
        exact ⟨hc', by omega⟩)
      simp only [rbListOf, List.map_cons, ihr, toSBlock, asStrV, asObjV]
      cases b with
      | mk bid bdef bci boi bpv =>
          simp only [List.cons.injEq, SBlockInstance.mk.injEq, true_and,
            and_true]
          have hc2 : bci = ci := hc
          have ho2 : boi = oi + 0 := ho
          omega

lemma rcListOf_toS :
    ∀ (ci0 : Nat) (cols : List SColumn),
    (∀ j c, cols.get? j = some c →
        c.index = ci0 + j ∧ ∀ oi b, c.blocks.get? oi = some b →
          b.columnIndex = ci0 + j ∧ b.orderIndex = oi) →
    (rcListOf ci0 cols).map toSColumn = cols := by
  intro ci0 cols
  induction cols generalizing ci0 with
  | nil => intro _; rfl
  | cons c rest ih =>
      intro h
      obtain ⟨hidx, hblocks⟩ := h 0 c rfl
      have ihr := ih (ci0 + 1) (fun j c' hc' => by
        obtain ⟨hidx', hb'⟩ := h (j + 1) c' hc'
        refine ⟨by omega, fun oi b hb => ?_⟩
        obtain ⟨h1, h2⟩ := hb' oi b hb
        exact ⟨by omega, h2⟩)
      have hbs : (rbListOf ci0 0 c.blocks).map toSBlock = c.blocks :=
        rbListOf_toS ci0 0 c.blocks (fun j b hb => by
          obtain ⟨h1, h2⟩ := hblocks j b hb
          exact ⟨h1, by omega⟩)
      simp only [rcListOf, List.map_cons, ihr, toSColumn, hbs]
      cases c with
      | mk cidx cblocks =>
          simp only [List.cons.injEq, SColumn.mk.injEq, true_and, and_true]
          have hidx2 : cidx = ci0 + 0 := hidx
          omega

/-- C8: for every workspace satisfying the data-model invariants whose
blocks all resolve in the registry, deserializing the serialized snapshot
succeeds and reading it back strictly typed yields the original workspace:
same config, same columns with the same blocks in the same order, every
`columnIndex` / `orderIndex` recomputed from array position. -/
theorem claim8_round_trip (reg : Registry) (w : SWorkspace)
    (hpos : PosWF w) (hres : SResolves reg w) :
    ∃ r, deserializeV (serializeV w) reg = .ok r ∧ toSWorkspace r = w := by
  refine ⟨_, deserializeV_ser reg w hres, ?_⟩
  have hcols : (rcListOf 0 w.columns).map toSColumn = w.columns :=
    rcListOf_toS 0 w.columns (fun j c hc => by
      obtain ⟨h1, h2⟩ := hpos j c hc
      refine ⟨by omega, fun oi b hb => ?_⟩
      obtain ⟨h3, h4⟩ := h2 oi b hb
      exact ⟨by omega, h4⟩)
  cases w with
  | mk wcols wcfg =>
      cases wcfg with
      | mk cc cw bg cp =>
          simp only [toSWorkspace, asNumV, SWorkspace.mk.injEq]
          simp only at hcols
          exact ⟨hcols, trivial⟩

/-- Serialization fixture: one block with a parameter value in the first of
two columns. -/
def sws0 : SWorkspace :=
  ⟨[⟨0, [⟨"block-1", "filter", 0, 0, [("level", JVal.jstr "info")]⟩]⟩,
    ⟨1, []⟩], ⟨3, 280, 8, 20⟩⟩

lemma sws0_pos : PosWF sws0 := by
  intro ci c hc
  cases ci with
  | zero =>
      have hc' : some (⟨0, [⟨"block-1", "filter", 0, 0,
          [("level", JVal.jstr "info")]⟩]⟩ : SColumn) = some c := hc
      cases Option.some.inj hc'
      refine ⟨rfl, ?_⟩
      intro oi b hb
      cases oi with
      | zero =>
          have hb' : some (⟨"block-1", "filter", 0, 0,
              [("level", JVal.jstr "info")]⟩ : SBlockInstance) = some b := hb
          cases Option.some.inj hb'
          exact ⟨rfl, rfl⟩
      | succ n =>
          exact Option.noConfusion
            (show (none : Option SBlockInstance) = some b from hb)
  | succ ci' =>
      cases ci' with
      | zero =>
          have hc' : some (⟨1, []⟩ : SColumn) = some c := hc
          cases Option.some.inj hc'
          refine ⟨rfl, ?_⟩
          intro oi b hb
          exact Option.noConfusion
            (show (none : Option SBlockInstance) = some b from hb)
      | succ ci'' =>
          exact Option.noConfusion
            (show (none : Option SColumn) = some c from hc)

lemma sws0_res : SResolves reg0 sws0 := by
  unfold SResolves
  decide

/-- Witness for C8: the two-column fixture round-trips to itself. -/
theorem claim8_witness :
    (PosWF sws0 ∧ SResolves reg0 sws0)
      ∧ ∃ r, deserializeV (serializeV sws0) reg0 = .ok r
          ∧ toSWorkspace r = sws0 :=
  ⟨⟨sws0_pos, sws0_res⟩, claim8_round_trip reg0 sws0 sws0_pos sws0_res⟩

/-- A parsed block entry on which `deserialize` does not throw: an object
whose `definitionId` is a string registered in the registry. -/
def OkBlockV (reg : Registry) : JVal → Bool
  | .jobj kvs =>
      match lookupK "definitionId" kvs with
      | some (.jstr s) => (regGet reg s).isSome
      | _ => false
  | _ => false

/-- A parsed column entry on which `deserialize` does not throw: an array of
acceptable block entries. -/
def OkColV (reg : Registry) : JVal → Bool
  | .jarr bs => bs.all (OkBlockV reg)
  | _ => false

/-- The `version` property is the number 1. -/
def versionOkB : Option JVal → Bool
  | some (.jnum q) => decide (q = 1)
  | _ => false

/-- The `config` property is present and not `null` (anything else survives
the four property reads). -/
def configOkB : Option JVal → Bool
  | some .jnull => false
  | some _ => true
  | none => false

/-- The `columns` property is an array of acceptable column entries. -/
def columnsOkB (reg : Registry) : Option JVal → Bool
  | some (.jarr cols) => cols.all (OkColV reg)
  | _ => false

/-- A parsed snapshot on which `deserialize` succeeds: an object whose
`version` is the number 1, whose `config` is present and not `null`, and
whose `columns` is an array of acceptable column entries. -/
def OkSnapshotV (reg : Registry) : JVal → Bool
  | .jobj kvs =>
      versionOkB (lookupK "version" kvs)
        && configOkB (lookupK "config" kvs)
        && columnsOkB reg (lookupK "columns" kvs)
  | _ => false

lemma deserializeBlocks_ok_iff (reg : Registry) (ci : Nat) :
    ∀ (oi : Nat) (bs : List JVal),
    (∃ rbs, deserializeBlocks reg ci oi bs = .ok rbs)
      ↔ bs.all (OkBlockV reg) = true := by
  intro oi bs
  induction bs generalizing oi with
  | nil =>
      constructor
      · intro _; rfl
      · intro _; exact ⟨[], rfl⟩
  | cons v rest ih =>
      cases v with
      | jnull =>
          simp [deserializeBlocks, jsProp, except_bind_err, OkBlockV]
      | jbool b0 =>
          simp [deserializeBlocks, jsProp, except_bind_ok, OkBlockV]
      | jnum q =>
          simp [deserializeBlocks, jsProp, except_bind_ok, OkBlockV]
      | jstr s =>
          simp [deserializeBlocks, jsProp, except_bind_ok, OkBlockV]
      | jarr l =>
          simp [deserializeBlocks, jsProp, except_bind_ok, OkBlockV]
      | jobj kvs =>
          simp only [deserializeBlocks, jsProp, except_bind_ok, List.all_cons]
          cases hlk : lookupK "definitionId" kvs with
          | none => simp [OkBlockV, hlk]
          | some dv =>
              cases dv with
              | jstr s =>
                  cases hreg : regGet reg s with
                  | none => simp [OkBlockV, hlk, hreg]
                  | some d =>
                      simp only [OkBlockV, hlk, hreg, Option.isSome_some,
                        Bool.true_and, except_bind_ok]
                      rw [← ih (oi + 1)]
                      constructor
                      · rintro ⟨rbs, hrbs⟩
                        cases hd : deserializeBlocks reg ci (oi + 1) rest with
                        | error e =>
                            rw [hd] at hrbs
                            simp [except_bind_err] at hrbs
                        | ok l => exact ⟨l, rfl⟩
                      · rintro ⟨l, hl⟩
                        rw [hl]
                        exact ⟨_, rfl⟩
              | jnull => simp [OkBlockV, hlk]
              | jbool b0 => simp [OkBlockV, hlk]
              | jnum q => simp [OkBlockV, hlk]
              | jarr l => simp [OkBlockV, hlk]
              | jobj kvs2 => simp [OkBlockV, hlk]

lemma deserializeCols_ok_iff (reg : Registry) :
    ∀ (ci : Nat) (cols : List JVal),
    (∃ rcs, deserializeCols reg ci cols = .ok rcs)
      ↔ cols.all (OkColV reg) = true := by
  intro ci cols
  induction cols generalizing ci with
  | nil =>
      constructor
      · intro _; rfl
      · intro _; exact ⟨[], rfl⟩
  | cons v rest ih =>
      cases v with
      | jarr bs =>
          simp only [deserializeCols, List.all_cons, OkColV]
          rw [Bool.and_eq_true, ← deserializeBlocks_ok_iff reg ci 0 bs,
            ← ih (ci + 1)]
          constructor
          · rintro ⟨rcs, hrcs⟩
            cases hb : deserializeBlocks reg ci 0 bs with
            | error e =>
                rw [hb] at hrcs
                simp [except_bind_err] at hrcs
            | ok l =>
                refine ⟨⟨l, rfl⟩, ?_⟩
                rw [hb, except_bind_ok] at hrcs
                cases hr : deserializeCols reg (ci + 1) rest with
                | error e =>
                    rw [hr] at hrcs
                    simp [except_bind_err] at hrcs
                | ok l2 => exact ⟨l2, rfl⟩
          · rintro ⟨⟨l, hl⟩, ⟨l2, hl2⟩⟩
            rw [hl, except_bind_ok, hl2, except_bind_ok]
            exact ⟨_, rfl⟩
      | jnull => simp [deserializeCols, OkColV]
      | jbool b0 => simp [deserializeCols, OkColV]
      | jnum q => simp [deserializeCols, OkColV]
      | jstr s => simp [deserializeCols, OkColV]
      | jobj kvs => simp [deserializeCols, OkColV]

/-- The value JS property access yields on a non-null parsed value. -/
def jsPropVal (v : JVal) (k : String) : Option JVal :=
  match v with
  | .jobj kvs => lookupK k kvs
  | _ => none

lemma jsProp_isOk {v : JVal} (h : v ≠ .jnull) (k : String) :
    jsProp v k = .ok (jsPropVal v k) := by
  cases v with
  | jnull => exact absurd rfl h
  | jbool b0 => rfl
  | jnum q => rfl
  | jstr s => rfl
  | jarr l => rfl
  | jobj kvs => rfl

lemma configOkB_some {cv : JVal} (h : cv ≠ .jnull) :
    configOkB (some cv) = true := by
  cases cv with
  | jnull => exact absurd rfl h
  | jbool b0 => rfl
  | jnum q => rfl
  | jstr s => rfl
  | jarr l => rfl
  | jobj kvs => rfl

lemma versionOkB_one : versionOkB (some (JVal.jnum 1)) = true := by
  simp [versionOkB]

lemma versionOkB_ne_one {q : ℚ} (h : q ≠ 1) :
    versionOkB (some (JVal.jnum q)) = false := by
  simp [versionOkB, h]

/-- C9 (amended): at the parsed-value level, `deserialize` succeeds exactly
when the snapshot is an object whose `version` property is the number 1,
whose `config` property is present and non-`null`, and whose `columns`
property is an array in which every entry is an array of objects each
carrying a `definitionId` string registered in the registry; it fails on
every other parsed value — so besides the claim's unrecognized-version and
unresolvable-definition causes (the malformed-JSON-text cause lives in the
`JSON.parse` host boundary, before this model's input), any structurally
unexpected snapshot also fails. -/
theorem claim9_deserialize_failure (reg : Registry) (v : JVal) :
    (∃ r, deserializeV v reg = .ok r) ↔ OkSnapshotV reg v = true := by
  cases v with
  | jnull => simp [deserializeV, jsProp, except_bind_err, OkSnapshotV]
  | jbool b0 => simp [deserializeV, jsProp, except_bind_ok, OkSnapshotV]
  | jnum q => simp [deserializeV, jsProp, except_bind_ok, OkSnapshotV]
  | jstr s => simp [deserializeV, jsProp, except_bind_ok, OkSnapshotV]
  | jarr l => simp [deserializeV, jsProp, except_bind_ok, OkSnapshotV]
  | jobj kvs =>
      simp only [deserializeV, jsProp, except_bind_ok, OkSnapshotV]
      cases hver : lookupK "version" kvs with
      | none => simp [versionOkB]
      | some vv =>
          cases vv with
          | jnull => simp [versionOkB]
          | jbool b0 => simp [versionOkB]
          | jstr s => simp [versionOkB]
          | jarr l => simp [versionOkB]
          | jobj kvs2 => simp [versionOkB]
          | jnum q =>
              by_cases hq : q = 1
              · subst hq
                simp only [versionOkB_one, Bool.true_and]
                rw [if_pos trivial]
                cases hcfg : lookupK "config" kvs with
                | none => simp [jsPropU, except_bind_err, configOkB]
                | some cv =>
                    by_cases hnull : cv = JVal.jnull
                    · subst hnull
                      simp [jsPropU, jsProp, except_bind_err, configOkB]
                    · simp only [jsPropU, jsProp_isOk hnull, except_bind_ok,
                        configOkB_some hnull, Bool.true_and]
                      cases hcols : lookupK "columns" kvs with
                      | none => simp [columnsOkB]
                      | some cls =>
                          cases cls with
                          | jnull => simp [columnsOkB]
                          | jbool b0 => simp [columnsOkB]
                          | jnum q2 => simp [columnsOkB]
                          | jstr s => simp [columnsOkB]
                          | jobj kvs2 => simp [columnsOkB]
                          | jarr cols =>
                              simp only [columnsOkB]
                              rw [← deserializeCols_ok_iff reg 0 cols]
                              constructor
                              · rintro ⟨r, hr⟩
                                cases hd : deserializeCols reg 0 cols with
                                | error e =>
                                    rw [hd] at hr
                                    simp [except_bind_err] at hr
                                | ok l => exact ⟨l, rfl⟩
                              · rintro ⟨l, hl⟩
                                rw [hl, except_bind_ok]
                                exact ⟨_, rfl⟩
              · simp only [versionOkB_ne_one hq, Bool.false_and]
                rw [if_neg hq]
                simp

/-- C9 counterexample: the parsed snapshot `{"version": 1}` has the
recognized version number 1 and contains no block at all — so none of the
claim's failure causes applies on the parsed value — yet `deserialize`
throws the JS TypeError reading `data.config.columnCount` of the missing
`config` object instead of returning a workspace. -/
theorem claim9_counterexample :
    deserializeV (JVal.jobj [("version", JVal.jnum 1)]) reg0
        = .error "TypeError"
      ∧ lookupK "version" [("version", JVal.jnum 1)] = some (JVal.jnum 1)
      ∧ lookupK "columns" [("version", JVal.jnum 1)] = none := by
  refine ⟨?_, rfl, rfl⟩
  have h1 : lookupK "version" [("version", JVal.jnum 1)]
      = some (JVal.jnum 1) := rfl
  have h2 : lookupK "config" [("version", JVal.jnum 1)] = none := rfl
  simp only [deserializeV, jsProp, h1, h2, except_bind_ok]
  rw [if_pos trivial]
  simp [jsPropU, except_bind_err]
